import Mathlib

/-!
Verification of the scalar reverse-mode automatic-differentiation engine
(`autograd.py`, with the instrumented `PassThroughOp` from `test_autograd.py`).

Modelling choices (shallow embedding):

* Python `float` scalars are modelled as `Rat`.  Every claim instance uses
  small integer values, where IEEE float64 arithmetic is exact, so rational
  arithmetic agrees with the source semantics on all statements proved here.
* The object graph (aliased `Value` references) is modelled as an arena:
  a `Graph` is a list of `Value` records and an operator stores the arena
  indices of its operand nodes.  Each `Value` owns the `Operator` that
  produced it (in the source an operator instance is stored in exactly the
  node returned by its `forward`), so the operator is stored inline in the
  node record as an `Option Op`.
* The recursive traversals `backprop_setup` / `backprop_calc` are modelled
  with an explicit fuel parameter; exhausting fuel yields `none` / `noFuel`
  (the Python recursion would simply not have terminated on such inputs).
* The `assert` in `Value.backprop_calc` is modelled by the `assertFail`
  result, carrying the mutated state at the moment the exception is raised.
* Two ghost fields instrument the record: `op_calc_calls` counts the
  invocations of the producing operator's `backprop_calc` (exactly the
  `backprop_count` diagnostic counter of `PassThroughOp` in the test file,
  generalised to every operator) and `op_setup_calls` counts invocations of
  the producing operator's `backprop_setup`.  Neither field influences any
  other computation.
-/

namespace Autograd

/-- The closed set of operator variants appearing in the repository:
`AddOp`, `SubOp`, `MulOp` from `autograd.py` and `PassThroughOp` from
`test_autograd.py`.  Each stores the arena indices of its operands. -/
inductive Op where
  | add (in1 in2 : Nat)
  | sub (in1 in2 : Nat)
  | mul (in1 in2 : Nat)
  | passthrough (in1 : Nat)
deriving DecidableEq, Repr

/-- Operand indices of an operator, in the order its `backprop_setup`
visits them (`_in1` then `_in2` for binary operators, `_in1` alone for
the unary one). -/
def Op.inputs : Op → List Nat
  | .add a b => [a, b]
  | .sub a b => [a, b]
  | .mul a b => [a, b]
  | .passthrough a => [a]

/-- Operand indices of an optional producer. -/
def opInputs : Option Op → List Nat
  | none => []
  | some o => o.inputs

/-- One `Value` object: fields `_v`, `_requires_grad`, `grad`, `_op`,
`_backprop_count` of `Value.__init__`, plus the two ghost call counters. -/
structure Value where
  v : Rat
  requires_grad : Bool
  grad : Option Rat
  op : Option Op
  backprop_count : Int
  op_setup_calls : Nat
  op_calc_calls : Nat
deriving DecidableEq, Repr

/-- `Value.__init__(v, *, requires_grad=False, op=None)`: stores `v`,
`requires_grad` and `op` unchanged, sets `grad = None` and
`_backprop_count = 0` (ghost counters start at 0). -/
def Value.init (v : Rat) (requires_grad : Bool) (op : Option Op) : Value :=
  { v := v
    requires_grad := requires_grad
    grad := none
    op := op
    backprop_count := 0
    op_setup_calls := 0
    op_calc_calls := 0 }

/-- The arena of all `Value` objects of a computation graph. -/
abbrev Graph := List Value

/-- `Value.backprop_setup` (and, inlined, `BinaryOp.backprop_setup` /
`UnaryOp.backprop_setup`, which call `backprop_setup` on each operand in
order): increment `_backprop_count`; on the transition to 1 and with a
producer present, recurse into the producer's operands.  An out-of-range
index cannot arise from the source's object references and yields `none`,
as does fuel exhaustion. -/
def backprop_setup : Nat → Graph → Nat → Option Graph
  | 0, _, _ => none
  | fuel+1, g, i =>
    match g[i]? with
    | none => none
    | some nd =>
      let nd1 : Value := { nd with backprop_count := nd.backprop_count + 1 }
      let g1 := g.set i nd1
      if nd1.backprop_count = 1 then
        match nd.op with
        | none => some g1
        | some o =>
          (o.inputs).foldlM (backprop_setup fuel)
            (g1.set i { nd1 with op_setup_calls := nd1.op_setup_calls + 1 })
      else some g1

/-- Result of `Value.backprop_calc`: normal return, assertion failure
(carrying the mutated state at the raise), or fuel exhaustion. -/
inductive CalcRes where
  | ok (g : Graph)
  | assertFail (g : Graph)
  | noFuel
deriving DecidableEq, Repr

/-- `Value.backprop_calc(grad_output)` together with the inlined
`backprop_calc` of the four operator variants.  For a node that requires
gradients: initialise `grad` to 0 if absent, add `grad_output`, decrement
`_backprop_count`, assert it is nonnegative, and when it reaches 0 with a
producer present forward the accumulated `self.grad` to the producer,
which distributes it to its operands via the chain rule (for `MulOp` the
operand values are read with `item()` at each call site).  Nodes that do
not require gradients ignore the contribution. -/
def backprop_calc : Nat → Graph → Nat → Rat → CalcRes
  | 0, _, _, _ => .noFuel
  | fuel+1, g, i, grad_output =>
    match g[i]? with
    | none => .assertFail g
    | some nd =>
      if nd.requires_grad then
        let base : Rat := nd.grad.getD 0
        let gr := base + grad_output
        let cnt := nd.backprop_count - 1
        let nd1 : Value := { nd with grad := some gr, backprop_count := cnt }
        let g1 := g.set i nd1
        if cnt < 0 then .assertFail g1
        else if cnt = 0 then
          match nd.op with
          | none => .ok g1
          | some o =>
            let g2 := g1.set i { nd1 with op_calc_calls := nd1.op_calc_calls + 1 }
            match o with
            | .add a b =>
              match backprop_calc fuel g2 a gr with
              | .ok g3 => backprop_calc fuel g3 b gr
              | r => r
            | .sub a b =>
              match backprop_calc fuel g2 a gr with
              | .ok g3 => backprop_calc fuel g3 b (-gr)
              | r => r
            | .mul a b =>
              match g2[b]? with
              | none => .assertFail g2
              | some nb =>
                match backprop_calc fuel g2 a (gr * nb.v) with
                | .ok g3 =>
                  match g3[a]? with
                  | none => .assertFail g3
                  | some na => backprop_calc fuel g3 b (gr * na.v)
                | r => r
            | .passthrough a => backprop_calc fuel g2 a gr
        else .ok g1
      else .ok g

/-- `Value.backward()`: `backprop_setup()` then `backprop_calc(1.0)`. -/
def backward (fuel : Nat) (g : Graph) (i : Nat) : CalcRes :=
  match backprop_setup fuel g i with
  | none => .noFuel
  | some g1 => backprop_calc fuel g1 i 1

/-- `BinaryOp.requires_grad`:
`self._in1._requires_grad or self._in2._requires_grad`. -/
def BinaryOp.requires_grad (g : Graph) (in1 in2 : Nat) : Option Bool :=
  match g[in1]?, g[in2]? with
  | some n1, some n2 => some (n1.requires_grad || n2.requires_grad)
  | _, _ => none

/-- A `UnaryOp` object: `UnaryOp.__init__(int1)` assigns only the
attribute `_in1`. -/
structure UnaryOpObj where
  in1 : Nat
deriving DecidableEq, Repr

/-- Reading `self._in2` on a `UnaryOp`: the attribute is never assigned
by `UnaryOp.__init__`, so the lookup raises `AttributeError`, modelled
as `none`. -/
def UnaryOpObj.in2 (_ : UnaryOpObj) : Option Nat := none

/-- `UnaryOp.requires_grad`:
`self._in1._requires_grad or self._in2._requires_grad`, with Python's
short-circuiting `or`: when `_in1._requires_grad` is true the result is
true without reading `_in2`; otherwise the read of the never-assigned
attribute `_in2` raises `AttributeError` (`none`). -/
def UnaryOp.requires_grad (g : Graph) (o : UnaryOpObj) : Option Bool :=
  match g[o.in1]? with
  | none => none
  | some n1 =>
    if n1.requires_grad then some true
    else
      match o.in2 with
      | none => none
      | some i2 =>
        match g[i2]? with
        | none => none
        | some n2 => some (n1.requires_grad || n2.requires_grad)

/-- `AddOp.forward`: result value `_in1._v + _in2._v`; requires grad iff
an operand does; wires itself as producer exactly when the result
requires gradients.  The new node is appended to the arena. -/
def AddOp.forward (g : Graph) (in1 in2 : Nat) : Option Graph :=
  match g[in1]?, g[in2]? with
  | some n1, some n2 =>
    let rg := n1.requires_grad || n2.requires_grad
    let op : Option Op := if rg then some (.add in1 in2) else none
    some (g ++ [Value.init (n1.v + n2.v) rg op])
  | _, _ => none

/-- `SubOp.forward`, analogous to `AddOp.forward`. -/
def SubOp.forward (g : Graph) (in1 in2 : Nat) : Option Graph :=
  match g[in1]?, g[in2]? with
  | some n1, some n2 =>
    let rg := n1.requires_grad || n2.requires_grad
    let op : Option Op := if rg then some (.sub in1 in2) else none
    some (g ++ [Value.init (n1.v - n2.v) rg op])
  | _, _ => none

/-- `MulOp.forward`, analogous to `AddOp.forward`. -/
def MulOp.forward (g : Graph) (in1 in2 : Nat) : Option Graph :=
  match g[in1]?, g[in2]? with
  | some n1, some n2 =>
    let rg := n1.requires_grad || n2.requires_grad
    let op : Option Op := if rg then some (.mul in1 in2) else none
    some (g ++ [Value.init (n1.v * n2.v) rg op])
  | _, _ => none

/-- `PassThroughOp.forward` from `test_autograd.py`:
`Value(self._in1._v, requires_grad=self._in1._requires_grad, op=self)` -
note the producer is wired unconditionally. -/
def PassThroughOp.forward (g : Graph) (in1 : Nat) : Option Graph :=
  match g[in1]? with
  | some n1 =>
    some (g ++ [Value.init n1.v n1.requires_grad (some (.passthrough in1))])
  | none => none

/-- `Value.item()` of the node at index `i`. -/
def item (g : Graph) (i : Nat) : Option Rat := (g[i]?).map (fun nd => nd.v)

/-- The `grad` attribute of the node at index `i`. -/
def gradOf (g : Graph) (i : Nat) : Option Rat :=
  match g[i]? with
  | some nd => nd.grad
  | none => none

/-- The `_backprop_count` attribute of the node at index `i`
(0 for an absent index). -/
def cntOf (g : Graph) (i : Nat) : Int :=
  match g[i]? with
  | some nd => nd.backprop_count
  | none => 0

/-- Run `backward` at root `r` and read the `grad` of node `i` of the
resulting state (`none` when the pass fails or runs out of fuel). -/
def runBackwardGrad (fuel : Nat) (g : Graph) (r i : Nat) : Option Rat :=
  match backward fuel g r with
  | .ok g1 => gradOf g1 i
  | _ => none

/-- Run `backward` at root `r` and read the ghost `op_calc_calls`
counter of node `i` of the resulting state. -/
def runBackwardOpCalcCalls (fuel : Nat) (g : Graph) (r i : Nat) : Option Nat :=
  match backward fuel g r with
  | .ok g1 => (g1[i]?).map (fun nd => nd.op_calc_calls)
  | _ => none

/-- Run `backward` twice in sequence from the same root and read the
`grad` of node `i` of the final state. -/
def runTwoBackwardGrad (fuel : Nat) (g : Graph) (r i : Nat) : Option Rat :=
  match backward fuel g r with
  | .ok g1 => runBackwardGrad fuel g1 r i
  | _ => none

/-- The graph state embedded in a `CalcRes`: exception propagation in
the source does not roll back mutations, so `assertFail` still carries
a state; `noFuel` has none. -/
def CalcRes.state : CalcRes → Option Graph
  | .ok g => some g
  | .assertFail g => some g
  | .noFuel => none

/-- The fields of a `Value` that `backprop_setup` never changes. -/
def setupStat (nd : Value) : Rat × Bool × Option Rat × Option Op × Nat :=
  (nd.v, nd.requires_grad, nd.grad, nd.op, nd.op_calc_calls)

/-- The fields of a `Value` that `backprop_calc` never changes. -/
def calcStat (nd : Value) : Rat × Bool × Option Op × Nat :=
  (nd.v, nd.requires_grad, nd.op, nd.op_setup_calls)

/-- Relation between a state and any later state of the same setup
pass: every node keeps its `setupStat` fields (only counters move). -/
def SetupFrame (g g' : Graph) : Prop :=
  ∀ k : Nat, (g'[k]?).map setupStat = (g[k]?).map setupStat

/-- Relation between a state and any later state of the same calc pass:
every node keeps its `calcStat` fields, and a node that does not
require gradients is not touched at all. -/
def CalcFrame (g g' : Graph) : Prop :=
  (∀ k : Nat, (g'[k]?).map calcStat = (g[k]?).map calcStat)
  ∧ ∀ (k : Nat) (nd : Value), g[k]? = some nd → nd.requires_grad = false →
      g'[k]? = some nd

/-!
Specification layer for the two-phase traversal.  A *pending multiset*
`p : Nat → Nat` counts, for each arena index, how many traversal visits
(registrations of the setup pass, deliveries of the calc pass) are
still owed to that node by the rest of the pass.  The *cascade closure*
computes the total number of visits each node will eventually receive:
operand indices of a well-formed graph are strictly below their
producer's node, so processing indices from high to low makes every
accumulated count final by the time its index is processed.
-/

/-- Add one pending visit per occurrence in `l`. -/
def bump (l : List Nat) (p : Nat → Nat) : Nat → Nat :=
  fun k => p k + l.count k

/-- No pending visits. -/
def noPending : Nat → Nat := fun _ => 0

/-- Closure gate for the calc pass, at a node holding `nd` whose final
visit count is `a`: the node will fire its producer iff it requires
gradients, its stored counter equals the visits still to come (so the
last delivery brings it to zero), at least one visit is coming, and a
producer exists. -/
def calcGate (nd : Value) (a : Nat) : Bool :=
  nd.requires_grad && ((a : Int) == nd.backprop_count) && (a != 0) && nd.op.isSome

/-- Closure gate for the setup pass: a node recurses into its producer
exactly on a first registration (stored counter still 0) with at least
one registration pending and a producer present. -/
def setupGate (nd : Value) (a : Nat) : Bool :=
  (nd.backprop_count == 0) && (a != 0) && nd.op.isSome

/-- One step of the cascade closure at index `c`. -/
def closureStep (gate : Value → Nat → Bool) (g : Graph) (c : Nat)
    (acc : Nat → Nat) : Nat → Nat :=
  match g[c]? with
  | none => acc
  | some nd => if gate nd (acc c) then bump (opInputs nd.op) acc else acc

/-- Cascade closure: process indices `c-1, c-2, ..., 0`. -/
def closureAux (gate : Value → Nat → Bool) (g : Graph) :
    Nat → (Nat → Nat) → (Nat → Nat)
  | 0, acc => acc
  | c+1, acc => closureAux gate g c (closureStep gate g c acc)

/-- Total eventual visits of every node, starting from pending `p`. -/
def closure (gate : Value → Nat → Bool) (g : Graph) (p : Nat → Nat) : Nat → Nat :=
  closureAux gate g g.length p

/-- A calc-pass state `g` is balanced for pending deliveries `p` when
every requires-grad node's counter equals the number of deliveries it
will still receive. -/
def Bal (g : Graph) (p : Nat → Nat) : Prop :=
  ∀ (j : Nat) (nd : Value), g[j]? = some nd → nd.requires_grad = true →
    (closure calcGate g p j : Int) = nd.backprop_count

/-- Setup-pass invariant quantity: current counter plus all future
registrations.  Preserved exactly by every setup step. -/
def regTotal (g : Graph) (p : Nat → Nat) (k : Nat) : Int :=
  cntOf g k + (closure setupGate g p k : Int)

/-- Ghost invariant quantity for the once-per-pass property of the
setup recursion: producer-setup calls already made plus the pending
first visit of this node. -/
def fvTotal (g : Graph) (p : Nat → Nat) (k : Nat) : Nat :=
  match g[k]? with
  | none => 0
  | some nd => nd.op_setup_calls +
      (if nd.backprop_count = 0 ∧ closure setupGate g p k ≠ 0 ∧ nd.op.isSome = true
       then 1 else 0)

/-- Operand indices of a producer are strictly below the produced
node's index (true of every graph the forward interface builds, since
the result node is appended after its operands). -/
def wfOps (g : Graph) : Prop :=
  ∀ (i : Nat) (nd : Value) (o : Op), g[i]? = some nd → nd.op = some o →
    ∀ j ∈ o.inputs, j < i

/-- A producer is wired only on requires-grad nodes (true of every
graph built through `AddOp`/`SubOp`/`MulOp.forward`). -/
def opImpliesRg (g : Graph) : Prop :=
  ∀ (i : Nat) (nd : Value), g[i]? = some nd → nd.op.isSome = true →
    nd.requires_grad = true

/-- All pending-contribution counters are nonnegative. -/
def cntNonneg (g : Graph) : Prop :=
  ∀ (k : Nat) (nd : Value), g[k]? = some nd → 0 ≤ nd.backprop_count

/-- Decidable check for `wfOps`. -/
def wfB (g : Graph) : Bool :=
  (List.range g.length).all fun i =>
    match g[i]? with
    | none => true
    | some nd => (opInputs nd.op).all fun j => decide (j < i)

/-- Decidable check for `opImpliesRg`. -/
def opRgB (g : Graph) : Bool :=
  g.all fun nd => !nd.op.isSome || nd.requires_grad

/-- Decidable check for a fresh traversal state: all counters zero. -/
def freshB (g : Graph) : Bool :=
  g.all fun nd => nd.backprop_count == 0

/-- Decidable check that no producer-setup call has been recorded yet. -/
def ghost0B (g : Graph) : Bool :=
  g.all fun nd => nd.op_setup_calls == 0

/-- The pair-of-requires-grad-leaves graph with producer already built:
`a = Value(x, requires_grad=True)`, `b = Value(y, requires_grad=True)`,
`out = a + b` (indices a=0, b=1, out=2). -/
def addPair (x y : Rat) : Graph :=
  [Value.init x true none, Value.init y true none,
   Value.init (x + y) true (some (.add 0 1))]

/-- The diamond graph of the fan-out claim and of
`test_short_multipath_backprop`, built through the forward interface:
`a = Value(2.0, requires_grad=True)`, `b = a + Value(3.0)`,
`c = a * Value(4.0)`, `out = b * c`.  Arena indices: a=0, the 3.0
leaf=1, b=2, the 4.0 leaf=3, c=4, out=5. -/
def buildDiamond : Option Graph :=
  (AddOp.forward [Value.init 2 true none, Value.init 3 false none] 0 1).bind fun g1 =>
  (MulOp.forward (g1 ++ [Value.init 4 false none]) 0 3).bind fun g2 =>
  MulOp.forward g2 2 4

/-- The state `buildDiamond` produces, as a literal. -/
def diamond : Graph :=
  [Value.init 2 true none, Value.init 3 false none,
   Value.init 5 true (some (.add 0 1)), Value.init 4 false none,
   Value.init 8 true (some (.mul 0 3)), Value.init 40 true (some (.mul 2 4))]

/-- The graph of `test_long_multipath_backprop` (claim C2):
`a = Value(2.0, requires_grad=True)`, `b = PassThroughOp(a).forward()`,
`c = b + Value(4.0)`, `d = b + Value(5.0)`, `out = c * d`.
Arena indices: a=0, b=1, the 4.0 leaf=2, c=3, the 5.0 leaf=4, d=5,
out=6. -/
def buildLongMultipath : Option Graph :=
  (PassThroughOp.forward [Value.init 2 true none] 0).bind fun g1 =>
  (AddOp.forward (g1 ++ [Value.init 4 false none]) 1 2).bind fun g2 =>
  (AddOp.forward (g2 ++ [Value.init 5 false none]) 1 4).bind fun g3 =>
  MulOp.forward g3 3 5

/-- The state `buildLongMultipath` produces, as a literal. -/
def longMultipath : Graph :=
  [Value.init 2 true none, Value.init 2 true (some (.passthrough 0)),
   Value.init 4 false none, Value.init 6 true (some (.add 1 2)),
   Value.init 5 false none, Value.init 7 true (some (.add 1 4)),
   Value.init 42 true (some (.mul 3 5))]

/-- The graph `out = a + b` with `a = Value(2.0, requires_grad=True)`
and `b = Value(3.0)` not requiring gradients (indices a=0, b=1,
out=2). -/
def c8Graph : Graph :=
  [Value.init 2 true none, Value.init 3 false none,
   Value.init 5 true (some (.add 0 1))]

/-- The state after `out.backward()` on `c8Graph`. -/
def c8After : Graph :=
  [{ Value.init 2 true none with grad := some 1 },
   { Value.init 3 false none with backprop_count := 1 },
   { Value.init 5 true (some (.add 0 1)) with
      grad := some 1, op_setup_calls := 1, op_calc_calls := 1 }]

/-- Single requires-grad node used to exhibit the assertion raise of
the calc pass (claim C5). -/
def c5guard : Graph := [Value.init 1 true none]

/-- A node already registered once (counter 1), for the
no-recursion-on-later-registration clause of claim C3. -/
def c3n1 : Value := { Value.init 2 true none with backprop_count := 1 }

/-- A fresh node with a passthrough producer, for the
recursion-on-first-registration clause of claim C3. -/
def c3n2 : Value := Value.init 2 true (some (.passthrough 0))

def c3w1 : Graph := [c3n1]

def c3w2 : Graph := [Value.init 2 true none, c3n2]

lemma buildDiamond_eq : buildDiamond = some diamond := by
  norm_num [buildDiamond, diamond, AddOp.forward, MulOp.forward, Value.init]

lemma buildLongMultipath_eq : buildLongMultipath = some longMultipath := by
  norm_num [buildLongMultipath, longMultipath, PassThroughOp.forward,
    AddOp.forward, MulOp.forward, Value.init]

/-- C1: for the diamond graph `a = Node(2.0, requires_grad=true)`,
`b = a + Node(3.0)`, `c = a * Node(4.0)`, `out = b * c`, running
`out.backward()` leaves `a.gradient = 28.0`: the two fan-out
contributions of the shared leaf `a` (4·a = 8 through `c` and
4·(a+3) = 20 through `b`) are summed. -/
theorem c1_diamond_fanout_gradient :
    buildDiamond = some diamond ∧ runBackwardGrad 8 diamond 5 0 = some 28 := by
  constructor
  · exact buildDiamond_eq
  · norm_num [diamond, runBackwardGrad, backward, backprop_setup, backprop_calc,
      Value.init, Op.inputs, gradOf]

/-- C2: in the graph `b = PassThroughOp(a).forward()`, `c = b + 4`,
`d = b + 5`, `out = c * d` with `a = 2.0`, one `out.backward()` call
invokes the producer of `b` exactly once (ghost counter
`op_calc_calls` of node `b` ends at 1, exactly the `backprop_count`
diagnostic of `PassThroughOp` in `test_long_multipath_backprop`), with
the fully accumulated gradient 13.0 (`b.grad = 13.0`), and the leaf
ends with `a.gradient = 13.0`. -/
theorem c2_single_propagation_shared_intermediate :
    buildLongMultipath = some longMultipath
    ∧ runBackwardGrad 9 longMultipath 6 0 = some 13
    ∧ runBackwardGrad 9 longMultipath 6 1 = some 13
    ∧ runBackwardOpCalcCalls 9 longMultipath 6 1 = some 1 := by
  refine ⟨buildLongMultipath_eq, ?_, ?_, ?_⟩ <;>
    norm_num [longMultipath, runBackwardGrad, runBackwardOpCalcCalls, backward,
      backprop_setup, backprop_calc, Value.init, Op.inputs, gradOf]

/-- C4: gradients of the three built-in binary operators at fresh
requires-grad leaves, through the forward interface: after
`(a+b).backward()` both gradients are 1.0; after `(a-b).backward()`
they are 1.0 and -1.0; after `(a*b).backward()` they are `b.value()`
and `a.value()`. -/
theorem c4_leaf_gradient_rules (x y : Rat) :
    (∀ g, AddOp.forward [Value.init x true none, Value.init y true none] 0 1 = some g →
       runBackwardGrad 3 g 2 0 = some 1 ∧ runBackwardGrad 3 g 2 1 = some 1)
    ∧ (∀ g, SubOp.forward [Value.init x true none, Value.init y true none] 0 1 = some g →
       runBackwardGrad 3 g 2 0 = some 1 ∧ runBackwardGrad 3 g 2 1 = some (-1))
    ∧ (∀ g, MulOp.forward [Value.init x true none, Value.init y true none] 0 1 = some g →
       runBackwardGrad 3 g 2 0 = some y ∧ runBackwardGrad 3 g 2 1 = some x) := by
  refine ⟨fun g hg => ?_, fun g hg => ?_, fun g hg => ?_⟩ <;>
  · simp only [AddOp.forward, SubOp.forward, MulOp.forward, Value.init] at hg
    norm_num at hg
    subst hg
    constructor <;>
      norm_num [runBackwardGrad, backward, backprop_setup, backprop_calc,
        Value.init, Op.inputs, gradOf]

/-- C4 witness at `x = 2`, `y = 3`. -/
theorem c4_leaf_gradient_rules_witness :
    runBackwardGrad 3 [Value.init 2 true none, Value.init 3 true none,
      Value.init 5 true (some (.add 0 1))] 2 0 = some 1
    ∧ runBackwardGrad 3 [Value.init 2 true none, Value.init 3 true none,
      Value.init (-1) true (some (.sub 0 1))] 2 1 = some (-1)
    ∧ runBackwardGrad 3 [Value.init 2 true none, Value.init 3 true none,
      Value.init 6 true (some (.mul 0 1))] 2 0 = some 3 :=
  ⟨(((c4_leaf_gradient_rules 2 3).1 _ (by
      norm_num [AddOp.forward, Value.init])).1),
   (((c4_leaf_gradient_rules 2 3).2.1 _ (by
      norm_num [SubOp.forward, Value.init])).2),
   (((c4_leaf_gradient_rules 2 3).2.2 _ (by
      norm_num [MulOp.forward, Value.init])).1)⟩

/-- C6, failing part: `UnaryOp.requires_grad` reads `self._in2`, an
attribute `UnaryOp.__init__` never assigns.  With a non-requires-grad
operand the short-circuiting `or` reaches that read and raises
`AttributeError` (modelled `none`) instead of returning `false`; with a
requires-grad operand the short circuit hides the bug and `true` is
returned.  The binary version is correct. -/
theorem c6_unary_requires_grad_attribute_error :
    (∀ x : Rat, UnaryOp.requires_grad [Value.init x false none] ⟨0⟩ = none)
    ∧ (∀ x : Rat, UnaryOp.requires_grad [Value.init x true none] ⟨0⟩ = some true)
    ∧ (∀ n1 n2 : Value, BinaryOp.requires_grad [n1, n2] 0 1
        = some (n1.requires_grad || n2.requires_grad)) := by
  refine ⟨fun x => ?_, fun x => ?_, fun n1 n2 => ?_⟩ <;>
    simp [UnaryOp.requires_grad, BinaryOp.requires_grad, UnaryOpObj.in2, Value.init]

/-- C7 counterexample: `backward()` on a `requires_grad=false` leaf is
not state-preserving: it increments the node's `_backprop_count` from
0 to 1, so the claim "leaves the state of that Node unchanged" fails
at `Value(2.0)`. -/
theorem c7_counterexample_counter_increments :
    backward 2 [Value.init 2 false none] 0
      = .ok [{ Value.init 2 false none with backprop_count := 1 }]
    ∧ ([{ Value.init 2 false none with backprop_count := 1 }] : Graph)
        ≠ [Value.init 2 false none] := by
  constructor
  · norm_num [backward, backprop_setup, backprop_calc, Value.init]
  · norm_num [Value.init]

/-- C7 (amended): `backward()` on a node with `requires_grad = false`
and no producer (the only shape the arithmetic interface produces for
non-differentiable results) raises no error and accumulates no
gradient anywhere; its only effect is incrementing that node's own
pending-contribution counter by one. -/
theorem c7_backward_non_rg_only_counter (fuel : Nat) (g : Graph) (r : Nat) (nd : Value)
    (hget : g[r]? = some nd) (hrg : nd.requires_grad = false) (hop : nd.op = none) :
    backward (fuel+1) g r
      = .ok (g.set r { nd with backprop_count := nd.backprop_count + 1 }) := by
  have hr : r < g.length := by
    by_contra h
    rw [List.getElem?_eq_none (Nat.le_of_not_lt h)] at hget
    exact Option.noConfusion hget
  have hset : (g.set r { nd with backprop_count := nd.backprop_count + 1 })[r]?
      = some { nd with backprop_count := nd.backprop_count + 1 } :=
    List.getElem?_set_self hr
  have hsetup : backprop_setup (fuel+1) g r
      = some (g.set r { nd with backprop_count := nd.backprop_count + 1 }) := by
    simp only [backprop_setup, hget, hop]
    split <;> rfl
  have hrg1 : ({ nd with backprop_count := nd.backprop_count + 1 } : Value).requires_grad
      = false := hrg
  simp only [backward, hsetup, backprop_calc, hset, hrg1]
  rw [if_neg]
  rw [hrg]
  exact fun h => Bool.noConfusion h

/-- C7 witness at the one-node graph `[Value(3.0)]`. -/
theorem c7_backward_non_rg_only_counter_witness :
    backward 1 [Value.init 3 false none] 0
      = .ok [{ Value.init 3 false none with backprop_count := 1 }] :=
  c7_backward_non_rg_only_counter 0 [Value.init 3 false none] 0
    (Value.init 3 false none) rfl rfl rfl

/-- C9 counterexample: for `out = a + b` with both leaves requiring
gradients, the first `backward()` gives `a.grad = 1.0`, but a second
`backward()` on the same output leaves `a.grad = 3.0`, not 2.0: the
root's total accumulated gradient (2.0) is what gets propagated, so
gradients do not simply double. -/
theorem c9_counterexample_second_pass_not_double :
    runBackwardGrad 3 (addPair 5 7) 2 0 = some 1
    ∧ runTwoBackwardGrad 3 (addPair 5 7) 2 0 = some 3
    ∧ runTwoBackwardGrad 3 (addPair 5 7) 2 0
        ≠ (runBackwardGrad 3 (addPair 5 7) 2 0).map (fun x => 2 * x) := by
  refine ⟨?_, ?_, ?_⟩ <;>
    norm_num [addPair, runBackwardGrad, runTwoBackwardGrad, backward,
      backprop_setup, backprop_calc, Value.init, Op.inputs, gradOf]

/-- C9 (amended): gradients are never reset between passes and a second
`backward()` succeeds, but accumulation compounds: each node propagates
its total accumulated gradient, so for `out = a + b` (any leaf values)
both leaf gradients are 1.0 after one pass and 3.0 = 1.0 + 2.0 after
two passes, rather than twice the first-pass value. -/
theorem c9_amended_gradients_accumulate_compounding (x y : Rat) :
    runBackwardGrad 3 (addPair x y) 2 0 = some 1
    ∧ runBackwardGrad 3 (addPair x y) 2 1 = some 1
    ∧ runTwoBackwardGrad 3 (addPair x y) 2 0 = some 3
    ∧ runTwoBackwardGrad 3 (addPair x y) 2 1 = some 3 := by
  refine ⟨?_, ?_, ?_, ?_⟩ <;>
    norm_num [addPair, runBackwardGrad, runTwoBackwardGrad, backward,
      backprop_setup, backprop_calc, Value.init, Op.inputs, gradOf]

/-- C10: `Value.__init__` with an explicit producer and
`requires_grad=False` always succeeds (the constructor is total) and
stores the producer reference unchanged - it neither raises an
invalid-state error nor drops the producer. -/
theorem c10_constructor_stores_producer (v : Rat) (o : Op) :
    (Value.init v false (some o)).op = some o
    ∧ (Value.init v false (some o)).requires_grad = false
    ∧ (Value.init v false (some o)).grad = none
    ∧ (Value.init v false (some o)).backprop_count = 0 :=
  ⟨rfl, rfl, rfl, rfl⟩

/-! Frame lemmas: what the two passes can and cannot mutate. -/

lemma lt_of_getElem?_eq_some {α : Type} {l : List α} {n : Nat} {a : α}
    (h : l[n]? = some a) : n < l.length := by
  by_contra hn
  rw [List.getElem?_eq_none (Nat.le_of_not_lt hn)] at h
  exact Option.noConfusion h

lemma setupFrame_refl (g : Graph) : SetupFrame g g := fun _ => rfl

lemma setupFrame_trans {g1 g2 g3 : Graph} (h1 : SetupFrame g1 g2)
    (h2 : SetupFrame g2 g3) : SetupFrame g1 g3 :=
  fun k => (h2 k).trans (h1 k)

lemma setupFrame_set {g : Graph} {i : Nat} {nd nd1 : Value}
    (hget : g[i]? = some nd) (hstat : setupStat nd1 = setupStat nd) :
    SetupFrame g (g.set i nd1) := by
  intro k
  rcases eq_or_ne i k with rfl | hne
  · rw [List.getElem?_set_self (lt_of_getElem?_eq_some hget), hget]
    simp [hstat]
  · rw [List.getElem?_set_ne hne]

lemma calcFrame_refl (g : Graph) : CalcFrame g g := ⟨fun _ => rfl, fun _ _ h _ => h⟩

lemma calcFrame_trans {g1 g2 g3 : Graph} (h1 : CalcFrame g1 g2)
    (h2 : CalcFrame g2 g3) : CalcFrame g1 g3 := by
  refine ⟨fun k => (h2.1 k).trans (h1.1 k), fun k nd hget hrg => ?_⟩
  exact h2.2 k nd (h1.2 k nd hget hrg) hrg

lemma calcFrame_set {g : Graph} {i : Nat} {nd nd1 : Value}
    (hget : g[i]? = some nd) (hstat : calcStat nd1 = calcStat nd)
    (hrg : nd.requires_grad = true) :
    CalcFrame g (g.set i nd1) := by
  constructor
  · intro k
    rcases eq_or_ne i k with rfl | hne
    · rw [List.getElem?_set_self (lt_of_getElem?_eq_some hget), hget]
      simp [hstat]
    · rw [List.getElem?_set_ne hne]
  · intro k ndk hgetk hrgk
    rcases eq_or_ne i k with rfl | hne
    · rw [hget] at hgetk
      cases hgetk
      rw [hrg] at hrgk
      exact Bool.noConfusion hrgk
    · rw [List.getElem?_set_ne hne]
      exact hgetk

/-- `backprop_setup` (and its fold over operator inputs) preserves the
`setupStat` fields of every node. -/
lemma backprop_setup_frame :
    ∀ fuel : Nat,
      (∀ g i g', backprop_setup fuel g i = some g' → SetupFrame g g')
      ∧ (∀ (l : List Nat) (g g' : Graph),
          l.foldlM (backprop_setup fuel) g = some g' → SetupFrame g g') := by
  intro fuel
  induction fuel with
  | zero =>
    constructor
    · intro g i g' h
      simp [backprop_setup] at h
    · intro l g g' h
      cases l with
      | nil =>
        simp only [List.foldlM_nil, Option.pure_def, Option.some.injEq] at h
        subst h
        exact setupFrame_refl g
      | cons a l =>
        simp [List.foldlM_cons, backprop_setup] at h
  | succ fuel ih =>
    have hsingle : ∀ g i g', backprop_setup (fuel+1) g i = some g' → SetupFrame g g' := by
      intro g i g' h
      rcases hgi : g[i]? with _ | nd
      · simp [backprop_setup, hgi] at h
      · obtain ⟨vv, rg, gr, opf, cnt, sc, cc⟩ := nd
        simp only [backprop_setup, hgi] at h
        by_cases hc : cnt + 1 = 1
        · rw [if_pos hc] at h
          rcases opf with _ | o
          · simp only [Option.some.injEq] at h
            subst h
            exact setupFrame_set hgi rfl
          · simp only at h
            refine setupFrame_trans ?_ (ih.2 o.inputs _ g' h)
            rw [List.set_set]
            exact setupFrame_set hgi rfl
        · rw [if_neg hc] at h
          simp only [Option.some.injEq] at h
          subst h
          exact setupFrame_set hgi rfl
    exact ⟨hsingle, by
      intro l
      induction l with
      | nil =>
        intro g g' h
        simp only [List.foldlM_nil, Option.pure_def, Option.some.injEq] at h
        subst h
        exact setupFrame_refl g
      | cons a l ihl =>
        intro g g' h
        rw [List.foldlM_cons] at h
        rcases hstep : backprop_setup (fuel+1) g a with _ | gmid
        · rw [hstep] at h
          simp at h
        · rw [hstep] at h
          simp only [Option.bind_eq_bind, Option.some_bind] at h
          exact setupFrame_trans (hsingle g a gmid hstep) (ihl gmid g' h)⟩

/-- Framing of the two-delivery sequencing used by `AddOp`, `SubOp` and
(after reading the operand value) `MulOp`. -/
lemma calc_seq_frame {fuel : Nat}
    (ih : ∀ g i go g', (backprop_calc fuel g i go).state = some g' → CalcFrame g g')
    (g : Graph) (a : Nat) (ga : Rat) (k : CalcRes → CalcRes)
    (hk : ∀ gmid g', (k (.ok gmid)).state = some g' → CalcFrame gmid g')
    (hid : ∀ r, (∀ gmid, r ≠ .ok gmid) → k r = r) :
    ∀ g', (k (backprop_calc fuel g a ga)).state = some g' → CalcFrame g g' := by
  intro g' h
  rcases hr : backprop_calc fuel g a ga with gmid | gx | _
  · rw [hr] at h
    exact calcFrame_trans (ih g a ga gmid (by rw [hr]; rfl)) (hk gmid g' h)
  · rw [hr, hid _ (by intro gmid hc; exact CalcRes.noConfusion hc)] at h
    simp only [CalcRes.state, Option.some.injEq] at h
    subst h
    exact ih g a ga _ (by rw [hr]; rfl)
  · rw [hr, hid _ (by intro gmid hc; exact CalcRes.noConfusion hc)] at h
    simp [CalcRes.state] at h

/-- `backprop_calc` preserves the `calcStat` fields of every node and
leaves nodes with `requires_grad = false` entirely untouched, whether
it returns normally or raises the internal assertion. -/
lemma backprop_calc_frame :
    ∀ (fuel : Nat) (g : Graph) (i : Nat) (go : Rat) (g' : Graph),
      (backprop_calc fuel g i go).state = some g' → CalcFrame g g' := by
  intro fuel
  induction fuel with
  | zero =>
    intro g i go g' h
    simp [backprop_calc, CalcRes.state] at h
  | succ fuel ih =>
    intro g i go g' h
    rcases hgi : g[i]? with _ | nd
    · simp only [backprop_calc, hgi, CalcRes.state, Option.some.injEq] at h
      subst h
      exact calcFrame_refl g
    · obtain ⟨vv, rg, gr, opf, cnt, sc, cc⟩ := nd
      rcases rg with _ | _
      · simp only [backprop_calc, hgi, Bool.false_eq_true, if_false,
          CalcRes.state, Option.some.injEq] at h
        subst h
        exact calcFrame_refl g
      · simp only [backprop_calc, hgi, if_true] at h
        by_cases hneg : cnt - 1 < 0
        · rw [if_pos hneg] at h
          simp only [CalcRes.state, Option.some.injEq] at h
          subst h
          exact calcFrame_set hgi rfl rfl
        · rw [if_neg hneg] at h
          by_cases hz : cnt - 1 = 0
          · rw [if_pos hz] at h
            rcases opf with _ | o
            · simp only [CalcRes.state, Option.some.injEq] at h
              subst h
              exact calcFrame_set hgi rfl rfl
            · rcases o with ⟨a, b⟩ | ⟨a, b⟩ | ⟨a, b⟩ | a <;>
                (simp only at h
                 rw [List.set_set] at h)
              · have hstep := calc_seq_frame ih _ a _ (fun r => match r with
                    | .ok g3 => backprop_calc fuel g3 b (gr.getD 0 + go)
                    | r => r) (fun gmid g'' hmid => ih _ b _ g'' hmid)
                    (fun r hr => by rcases r with _ | _ | _ <;> first
                      | rfl
                      | exact absurd rfl (hr _)) g' h
                refine calcFrame_trans ?_ hstep
                exact calcFrame_set hgi rfl rfl
              · have hstep := calc_seq_frame ih _ a _ (fun r => match r with
                    | .ok g3 => backprop_calc fuel g3 b (-(gr.getD 0 + go))
                    | r => r) (fun gmid g'' hmid => ih _ b _ g'' hmid)
                    (fun r hr => by rcases r with _ | _ | _ <;> first
                      | rfl
                      | exact absurd rfl (hr _)) g' h
                refine calcFrame_trans ?_ hstep
                exact calcFrame_set hgi rfl rfl
              · rcases hb : (g.set i
                    { v := vv, requires_grad := true, grad := some (gr.getD 0 + go),
                      op := some (Op.mul a b), backprop_count := cnt - 1,
                      op_setup_calls := sc, op_calc_calls := cc + 1 })[b]? with _ | nb
                · rw [hb] at h
                  simp only [CalcRes.state, Option.some.injEq] at h
                  subst h
                  exact calcFrame_set hgi rfl rfl
                · rw [hb] at h
                  simp only at h
                  have hstep := calc_seq_frame ih _ a _ (fun r => match r with
                      | .ok g3 => match g3[a]? with
                        | none => .assertFail g3
                        | some na => backprop_calc fuel g3 b ((gr.getD 0 + go) * na.v)
                      | r => r)
                      (fun gmid g'' hmid => by
                        simp only at hmid
                        rcases ha : gmid[a]? with _ | na
                        · rw [ha] at hmid
                          simp only [CalcRes.state, Option.some.injEq] at hmid
                          subst hmid
                          exact calcFrame_refl gmid
                        · rw [ha] at hmid
                          exact ih _ b _ g'' hmid)
                      (fun r hr => by rcases r with _ | _ | _ <;> first
                        | rfl
                        | exact absurd rfl (hr _)) g' h
                  refine calcFrame_trans ?_ hstep
                  exact calcFrame_set hgi rfl rfl
              · have hstep := ih _ a _ g' h
                refine calcFrame_trans ?_ hstep
                exact calcFrame_set hgi rfl rfl
          · rw [if_neg hz] at h
            simp only [CalcRes.state, Option.some.injEq] at h
            subst h
            exact calcFrame_set hgi rfl rfl

/-- C8: a node that does not require gradients keeps an absent (`None`)
gradient, never 0.0: the constructor initialises `grad` to `None`, and
a whole `backward()` pass over any graph containing the node (whether
it finishes normally or raises the internal assertion) leaves the
node's `grad` attribute exactly as it was - in particular absent if it
was absent.  Untouched nodes keep `grad = None` from construction. -/
theorem c8_non_rg_gradient_stays_absent :
    (∀ (v : Rat) (rg : Bool) (op : Option Op), (Value.init v rg op).grad = none)
    ∧ ∀ (fuel : Nat) (g : Graph) (r : Nat) (g' : Graph) (k : Nat) (nd : Value),
        (backward fuel g r).state = some g' →
        g[k]? = some nd → nd.requires_grad = false →
        gradOf g' k = nd.grad := by
  constructor
  · intro v rg op
    rfl
  · intro fuel g r g' k nd h hget hrg
    rcases hs : backprop_setup fuel g r with _ | g1
    · rw [backward] at h
      rw [hs] at h
      simp [CalcRes.state] at h
    · have hsf := (backprop_setup_frame fuel).1 g r g1 hs
      have hmap := hsf k
      rw [hget] at hmap
      rcases hg1k : g1[k]? with _ | nd1
      · rw [hg1k] at hmap
        simp at hmap
      · rw [hg1k] at hmap
        simp only [Option.map_some', Option.some.injEq, setupStat, Prod.mk.injEq] at hmap
        obtain ⟨hv, hrg1, hgr1, hop1, hcc1⟩ := hmap
        have hcalc : (backprop_calc fuel g1 r 1).state = some g' := by
          rw [backward] at h
          rw [hs] at h
          exact h
        have hcf := backprop_calc_frame fuel g1 r 1 g' hcalc
        have huntouched := hcf.2 k nd1 hg1k (by rw [hrg1, hrg])
        simp only [gradOf, huntouched]
        exact hgr1

/-- C8 witness: on `c8Graph`, `backward()` completes and `b.grad` is
still `None` while `a.grad = 1.0`. -/
theorem c8_non_rg_gradient_stays_absent_witness :
    gradOf c8After 1 = none ∧ gradOf c8After 0 = some 1 :=
  ⟨c8_non_rg_gradient_stays_absent.2 3 c8Graph 2 c8After 1 (Value.init 3 false none)
      (by norm_num [c8Graph, c8After, backward, backprop_setup, backprop_calc,
        Value.init, Op.inputs, CalcRes.state])
      rfl rfl,
   by norm_num [c8After, gradOf, Value.init]⟩

/-! Closure layer lemmas. -/

lemma bump_apply (l : List Nat) (p : Nat → Nat) (k : Nat) :
    bump l p k = p k + l.count k := rfl

lemma closureAux_hi (gate : Value → Nat → Bool) (g : Graph)
    (hwf : wfOps g) :
    ∀ (c : Nat) (acc : Nat → Nat) (k : Nat), c ≤ k + 1 →
      closureAux gate g c acc k = acc k := by
  intro c
  induction c with
  | zero => intro acc k h; rfl
  | succ c ih =>
    intro acc k h
    rw [closureAux, ih _ k (le_trans (Nat.le_succ c) h)]
    rcases hgc : g[c]? with _ | nd
    · simp only [closureStep, hgc]
    · simp only [closureStep, hgc]
      by_cases hgate : gate nd (acc c) = true
      · rw [if_pos hgate, bump_apply]
        have hcount : (opInputs nd.op).count k = 0 := by
          rw [List.count_eq_zero]
          intro hmem
          rcases hopn : nd.op with _ | o
          · rw [hopn] at hmem
            exact absurd hmem (List.not_mem_nil k)
          · rw [hopn] at hmem
            have hk := hwf c nd o hgc hopn k hmem
            omega
        omega
      · rw [if_neg hgate]

lemma closureAux_mono (gate : Value → Nat → Bool) (g : Graph) :
    ∀ (c : Nat) (acc : Nat → Nat) (k : Nat), acc k ≤ closureAux gate g c acc k := by
  intro c
  induction c with
  | zero => intro acc k; exact Nat.le_refl _
  | succ c ih =>
    intro acc k
    rw [closureAux]
    refine le_trans ?_ (ih _ k)
    rcases hgc : g[c]? with _ | nd
    · simp only [closureStep, hgc]
      exact Nat.le_refl _
    · simp only [closureStep, hgc]
      by_cases hgate : gate nd (acc c) = true
      · rw [if_pos hgate, bump_apply]
        omega
      · rw [if_neg hgate]

lemma closureAux_of_zero (gate : Value → Nat → Bool) (g : Graph)
    (hg0 : ∀ nd, gate nd 0 = false) :
    ∀ (c : Nat) (acc : Nat → Nat), (∀ k, acc k = 0) →
      ∀ k, closureAux gate g c acc k = 0 := by
  intro c
  induction c with
  | zero => intro acc hacc k; exact hacc k
  | succ c ih =>
    intro acc hacc k
    rw [closureAux]
    refine ih _ ?_ k
    intro m
    rcases hgc : g[c]? with _ | nd
    · simp only [closureStep, hgc]
      exact hacc m
    · simp only [closureStep, hgc, hacc c, hg0 nd]
      simp only [Bool.false_eq_true, if_false]
      exact hacc m

lemma calcGate_zero (nd : Value) : calcGate nd 0 = false := by
  simp [calcGate]

lemma setupGate_zero (nd : Value) : setupGate nd 0 = false := by
  simp [setupGate]

/-- Master difference lemma for the cascade closure.  Compare the run
over a state `g₁` with pending visits containing one visit of node `j`
against the run over the post-visit state `g₂` whose pending multiset
has that visit consumed (and, when the visit fires the producer in one
run but not the other, compensated by the pushed operand visits
described by `e`): away from `j` the closures agree, and the closure of
the second run at `j` is one smaller. -/
lemma closure_master (gate : Value → Nat → Bool)
    (g₁ g₂ : Graph) (j : Nat) (nd₁ nd₂ : Value) (e : Nat → Nat)
    (T' : Nat) (f₁ f₂ : Bool)
    (hwf₁ : wfOps g₁)
    (hag : ∀ k : Nat, k ≠ j → g₁[k]? = g₂[k]?)
    (hj1 : g₁[j]? = some nd₁) (hj2 : g₂[j]? = some nd₂)
    (hop : nd₂.op = nd₁.op)
    (hf₁ : gate nd₁ (T' + 1) = f₁) (hf₂ : gate nd₂ T' = f₂)
    (hbound : ∀ k ∈ opInputs nd₁.op, k < j)
    (he : ∀ k : Nat, k ≠ j →
      (if f₁ then (opInputs nd₁.op).count k else 0)
        = e k + (if f₂ then (opInputs nd₁.op).count k else 0)) :
    ∀ (c : Nat) (acc₁ acc₂ : Nat → Nat),
      (j < c → (∀ k : Nat, k ≠ j → acc₂ k = acc₁ k + e k) ∧ acc₁ j = acc₂ j + 1
        ∧ closureAux gate g₁ c acc₁ j = T' + 1) →
      (c ≤ j → (∀ k : Nat, k ≠ j → acc₂ k = acc₁ k) ∧ acc₂ j = T') →
      (∀ k : Nat, k ≠ j → closureAux gate g₁ c acc₁ k = closureAux gate g₂ c acc₂ k)
        ∧ closureAux gate g₂ c acc₂ j = T' := by
  have he0 : ∀ k : Nat, k ≠ j → ¬ k < j → e k = 0 := by
    intro k hk hnk
    have hcnt : (opInputs nd₁.op).count k = 0 := by
      rw [List.count_eq_zero]
      intro hm
      exact hnk (hbound k hm)
    have hek := he k hk
    rw [hcnt] at hek
    simp only [ite_self] at hek
    omega
  have hcntj : (opInputs nd₁.op).count j = 0 := by
    rw [List.count_eq_zero]
    intro hm
    exact absurd (hbound j hm) (lt_irrefl j)
  intro c
  induction c with
  | zero =>
    intro acc₁ acc₂ hhigh hlow
    obtain ⟨h1, h2⟩ := hlow (Nat.zero_le j)
    exact ⟨fun k hk => (h1 k hk).symm, h2⟩
  | succ c ihc =>
    intro acc₁ acc₂ hhigh hlow
    rcases Nat.lt_or_ge j (c+1) with hjc | hjc
    · obtain ⟨h1, h2, h3⟩ := hhigh hjc
      rcases Nat.lt_or_ge j c with hjlt | hjge
      · -- j < c : a high step at index c, identical in both runs
        have hcj : c ≠ j := by omega
        have hgc2 := hag c hcj
        simp only [closureAux] at h3 ⊢
        rcases hgc : g₁[c]? with _ | nd
        · rw [hgc] at hgc2
          simp only [closureStep, hgc, ← hgc2] at h3 ⊢
          exact ihc acc₁ acc₂ (fun _ => ⟨h1, h2, h3⟩) (fun hc => absurd hc (by omega))
        · rw [hgc] at hgc2
          have hacc : acc₂ c = acc₁ c := by
            have h1c := h1 c hcj
            have he0c := he0 c hcj (by omega)
            omega
          simp only [closureStep, hgc, ← hgc2, hacc] at h3 ⊢
          by_cases hgate : gate nd (acc₁ c) = true
          · rw [if_pos hgate] at h3
            rw [if_pos hgate, if_pos hgate]
            refine ihc _ _ (fun _ => ⟨?_, ?_, h3⟩) (fun hc => absurd hc (by omega))
            · intro k hk
              simp only [bump_apply]
              have := h1 k hk
              omega
            · simp only [bump_apply]
              omega
          · rw [if_neg hgate] at h3
            rw [if_neg hgate, if_neg hgate]
            exact ihc acc₁ acc₂ (fun _ => ⟨h1, h2, h3⟩) (fun hc => absurd hc (by omega))
      · -- j = c : the transition step
        have hj : c = j := by omega
        subst hj
        have ha1 : acc₁ c = T' + 1 := by
          have hhi := closureAux_hi gate g₁ hwf₁ (c+1) acc₁ c (Nat.le_refl _)
          rw [hhi] at h3
          exact h3
        have ha2 : acc₂ c = T' := by omega
        have hstep1 : ∀ k : Nat, closureStep gate g₁ c acc₁ k
            = acc₁ k + (if f₁ = true then (opInputs nd₁.op).count k else 0) := by
          intro k
          simp only [closureStep, hj1, ha1, hf₁]
          cases f₁
          · simp
          · simp [bump_apply]
        have hstep2 : ∀ k : Nat, closureStep gate g₂ c acc₂ k
            = acc₂ k + (if f₂ = true then (opInputs nd₁.op).count k else 0) := by
          intro k
          simp only [closureStep, hj2, ha2, hf₂, hop]
          cases f₂
          · simp
          · simp [bump_apply]
        simp only [closureAux]
        refine ihc (closureStep gate g₁ c acc₁) (closureStep gate g₂ c acc₂)
          (fun hc => absurd hc (by omega)) (fun _ => ⟨?_, ?_⟩)
        · intro k hk
          rw [hstep1 k, hstep2 k]
          have hx := h1 k hk
          have hy := he k hk
          omega
        · rw [hstep2 c, hcntj]
          simp only [ite_self]
          omega
    · -- c + 1 ≤ j : a low step, identical in both runs
      obtain ⟨h1, h2⟩ := hlow hjc
      have hcj : c ≠ j := by omega
      have hgc2 := hag c hcj
      simp only [closureAux]
      rcases hgc : g₁[c]? with _ | nd
      · rw [hgc] at hgc2
        simp only [closureStep, hgc, ← hgc2]
        exact ihc acc₁ acc₂ (fun hc => absurd hc (by omega)) (fun _ => ⟨h1, h2⟩)
      · rw [hgc] at hgc2
        have hacc : acc₂ c = acc₁ c := h1 c hcj
        have hbnd : ∀ m ∈ opInputs nd.op, m < c := by
          intro m hm
          rcases hopn : nd.op with _ | o
          · rw [hopn] at hm
            exact absurd hm (List.not_mem_nil m)
          · rw [hopn] at hm
            exact hwf₁ c nd o hgc hopn m hm
        have hcntj2 : (opInputs nd.op).count j = 0 := by
          rw [List.count_eq_zero]
          intro hm
          exact absurd (hbnd j hm) (by omega)
        simp only [closureStep, hgc, ← hgc2, hacc]
        by_cases hgate : gate nd (acc₁ c) = true
        · rw [if_pos hgate, if_pos hgate]
          refine ihc _ _ (fun hc => absurd hc (by omega)) (fun _ => ⟨?_, ?_⟩)
          · intro k hk
            simp only [bump_apply]
            have := h1 k hk
            omega
          · simp only [bump_apply]
            omega
        · rw [if_neg hgate, if_neg hgate]
          exact ihc acc₁ acc₂ (fun hc => absurd hc (by omega)) (fun _ => ⟨h1, h2⟩)

lemma closure_visit (gate : Value → Nat → Bool) (g : Graph) (j : Nat)
    (nd nd₂ : Value) (q e : Nat → Nat) (T' : Nat) (f₁ f₂ : Bool)
    (hwf : wfOps g)
    (hj : g[j]? = some nd)
    (hople : ∀ k ∈ opInputs nd.op, k < j)
    (hop2 : nd₂.op = nd.op)
    (hT : closure gate g (bump [j] q) j = T' + 1)
    (hf₁ : gate nd (T' + 1) = f₁)
    (hf₂ : gate nd₂ T' = f₂)
    (he : ∀ k : Nat, k ≠ j →
      (if f₁ then (opInputs nd.op).count k else 0)
        = e k + (if f₂ then (opInputs nd.op).count k else 0))
    (hej : e j = 0)
    (p₂ : Nat → Nat) (hp₂ : ∀ k, p₂ k = q k + e k) :
    (∀ k : Nat, k ≠ j → closure gate (g.set j nd₂) p₂ k
        = closure gate g (bump [j] q) k)
    ∧ closure gate (g.set j nd₂) p₂ j = T' := by
  have hjlen : j < g.length := lt_of_getElem?_eq_some hj
  have hj2 : (g.set j nd₂)[j]? = some nd₂ := List.getElem?_set_self hjlen
  have hag : ∀ k : Nat, k ≠ j → g[k]? = (g.set j nd₂)[k]? :=
    fun k hk => (List.getElem?_set_ne (Ne.symm hk)).symm
  have hmaster := closure_master gate g (g.set j nd₂) j nd nd₂ e T' f₁ f₂
    hwf hag hj hj2 hop2 hf₁ hf₂ hople he g.length (bump [j] q) p₂
    (fun _ => ⟨fun k hk => by
        rw [hp₂ k, bump_apply]
        have : ([j] : List Nat).count k = 0 := by
          rw [List.count_eq_zero, List.mem_singleton]
          exact fun hm => hk hm
        omega,
      by
        rw [hp₂ j, hej, bump_apply]
        have : ([j] : List Nat).count j = 1 := by
          simp [List.count_cons, List.count_nil]
        omega,
      hT⟩)
    (fun hc => absurd hjlen (by omega))
  have hlen : (g.set j nd₂).length = g.length := List.length_set g j nd₂
  constructor
  · intro k hk
    have := hmaster.1 k hk
    rw [closure, closure, hlen]
    exact this.symm
  · rw [closure, hlen]
    exact hmaster.2

lemma length_eq_of_getElem?_none_iff {α : Type} {l₁ l₂ : List α}
    (h : ∀ k : Nat, l₁[k]? = none ↔ l₂[k]? = none) : l₁.length = l₂.length := by
  by_contra hne
  rcases Nat.lt_or_ge l₁.length l₂.length with hlt | hge
  · have h2 := (h l₁.length).mp (List.getElem?_eq_none (Nat.le_refl _))
    rw [List.getElem?_eq_none_iff] at h2
    omega
  · have h2 := (h l₂.length).mpr (List.getElem?_eq_none (Nat.le_refl _))
    rw [List.getElem?_eq_none_iff] at h2
    omega

/-! Transport of node facts along the frames. -/

lemma setupFrame_some {g g' : Graph} (h : SetupFrame g g') {k : Nat} {nd : Value}
    (hk : g[k]? = some nd) :
    ∃ nd', g'[k]? = some nd' ∧ nd'.v = nd.v ∧ nd'.requires_grad = nd.requires_grad
      ∧ nd'.grad = nd.grad ∧ nd'.op = nd.op ∧ nd'.op_calc_calls = nd.op_calc_calls := by
  have hmap := h k
  rw [hk] at hmap
  rcases hk' : g'[k]? with _ | nd'
  · rw [hk'] at hmap
    simp at hmap
  · rw [hk'] at hmap
    simp only [Option.map_some', Option.some.injEq, setupStat, Prod.mk.injEq] at hmap
    exact ⟨nd', rfl, hmap.1, hmap.2.1, hmap.2.2.1, hmap.2.2.2.1, hmap.2.2.2.2⟩

lemma setupFrame_none_iff {g g' : Graph} (h : SetupFrame g g') (k : Nat) :
    g[k]? = none ↔ g'[k]? = none := by
  have hmap := h k
  constructor
  · intro hk
    rw [hk] at hmap
    rcases hk' : g'[k]? with _ | nd'
    · rfl
    · rw [hk'] at hmap
      simp at hmap
  · intro hk
    rw [hk] at hmap
    rcases hk' : g[k]? with _ | nd
    · rfl
    · rw [hk'] at hmap
      simp at hmap

lemma setupFrame_length {g g' : Graph} (h : SetupFrame g g') :
    g'.length = g.length :=
  length_eq_of_getElem?_none_iff (fun k => (setupFrame_none_iff h k).symm)

lemma wfOps_of_setupFrame {g g' : Graph} (hf : SetupFrame g g') (hwf : wfOps g) :
    wfOps g' := by
  intro i nd' o hgi' hop'
  have hmap := hf i
  rw [hgi'] at hmap
  rcases hgi : g[i]? with _ | nd
  · rw [hgi] at hmap
    simp at hmap
  · rw [hgi] at hmap
    simp only [Option.map_some', Option.some.injEq, setupStat, Prod.mk.injEq] at hmap
    exact hwf i nd o hgi (by rw [← hmap.2.2.2.1, hop'])

lemma cntNonneg_set {g : Graph} {j : Nat} {nd nd' : Value}
    (hg : cntNonneg g) (hj : g[j]? = some nd)
    (hnd : 0 ≤ nd'.backprop_count) : cntNonneg (g.set j nd') := by
  intro k ndk hk
  rcases eq_or_ne j k with rfl | hne
  · rw [List.getElem?_set_self (lt_of_getElem?_eq_some hj)] at hk
    cases hk
    exact hnd
  · rw [List.getElem?_set_ne hne] at hk
    exact hg k ndk hk

/-! One setup registration at a node: the invariants are preserved. -/

lemma setup_visit_fire (g : Graph) (j : Nat) (nd : Value) (o : Op) (q : Nat → Nat)
    (hwf : wfOps g) (hj : g[j]? = some nd)
    (hc0 : nd.backprop_count = 0) (ho : nd.op = some o) :
    (∀ k : Nat, regTotal (g.set j { nd with backprop_count := nd.backprop_count + 1, op_setup_calls := nd.op_setup_calls + 1 }) (bump o.inputs q) k
      = regTotal g (bump [j] q) k)
    ∧ (∀ k : Nat, fvTotal (g.set j { nd with backprop_count := nd.backprop_count + 1, op_setup_calls := nd.op_setup_calls + 1 }) (bump o.inputs q) k
      = fvTotal g (bump [j] q) k) := by
  obtain ⟨vv, rg, gr, opf, cnt, sc, cc⟩ := nd
  simp only at hc0 ho ⊢
  subst hc0
  subst ho
  have hjlen : j < g.length := lt_of_getElem?_eq_some hj
  set T := closure setupGate g (bump [j] q) j with hTdef
  have hT1 : 1 ≤ T := by
    have hm := closureAux_mono setupGate g g.length (bump [j] q) j
    have hb : bump [j] q j = q j + 1 := by
      simp [bump_apply, List.count_cons, List.count_nil]
    rw [closure] at hTdef
    omega
  have hople : ∀ k ∈ opInputs (some o : Option Op), k < j := by
    intro k hk
    exact hwf j _ o hj rfl k hk
  have hcj : (opInputs (some o : Option Op)).count j = 0 := by
    rw [List.count_eq_zero]
    intro hm
    exact absurd (hople j hm) (lt_irrefl j)
  have hvis := closure_visit setupGate g j
    ⟨vv, rg, gr, some o, 0, sc, cc⟩
    ⟨vv, rg, gr, some o, 0 + 1, sc + 1, cc⟩
    q (fun k => (opInputs (some o : Option Op)).count k) (T - 1) true false hwf hj hople rfl
    (by rw [← hTdef]; omega)
    (by simp [setupGate])
    (by simp [setupGate])
    (fun k hk => by simp)
    hcj
    (bump o.inputs q) (fun k => by simp [bump_apply, opInputs])
  have hset : (g.set j (⟨vv, rg, gr, some o, 0 + 1, sc + 1, cc⟩ : Value))[j]?
      = some ⟨vv, rg, gr, some o, 0 + 1, sc + 1, cc⟩ :=
    List.getElem?_set_self hjlen
  constructor
  · intro k
    rcases eq_or_ne k j with rfl | hk
    · simp only [regTotal, cntOf, hset, hj, hvis.2, ← hTdef]
      push_cast
      omega
    · simp only [regTotal, cntOf, List.getElem?_set_ne (Ne.symm hk), hvis.1 k hk]
  · intro k
    rcases eq_or_ne k j with rfl | hk
    · simp only [fvTotal, hset, hj, hvis.2, ← hTdef]
      rw [if_neg (by intro hcontr; have h1 := hcontr.1; omega)]
      rw [if_pos (by refine ⟨?_, ?_, ?_⟩ <;> first | trivial | omega)]
    · simp only [fvTotal, List.getElem?_set_ne (Ne.symm hk), hvis.1 k hk]

lemma setup_visit_nofire (g : Graph) (j : Nat) (nd : Value) (q : Nat → Nat)
    (hwf : wfOps g) (hj : g[j]? = some nd) (hcnt : 0 ≤ nd.backprop_count)
    (hcase : ¬ (nd.backprop_count = 0 ∧ nd.op.isSome = true)) :
    (∀ k : Nat, regTotal (g.set j { nd with backprop_count := nd.backprop_count + 1 }) q k
      = regTotal g (bump [j] q) k)
    ∧ (∀ k : Nat, fvTotal (g.set j { nd with backprop_count := nd.backprop_count + 1 }) q k
      = fvTotal g (bump [j] q) k) := by
  obtain ⟨vv, rg, gr, opf, cnt, sc, cc⟩ := nd
  simp only at hcnt hcase ⊢
  have hjlen : j < g.length := lt_of_getElem?_eq_some hj
  set T := closure setupGate g (bump [j] q) j with hTdef
  have hT1 : 1 ≤ T := by
    have hm := closureAux_mono setupGate g g.length (bump [j] q) j
    have hb : bump [j] q j = q j + 1 := by
      simp [bump_apply, List.count_cons, List.count_nil]
    rw [closure] at hTdef
    omega
  have hople : ∀ k ∈ opInputs opf, k < j := by
    intro k hk
    rcases hopn : opf with _ | o
    · rw [hopn] at hk
      exact absurd hk (List.not_mem_nil k)
    · rw [hopn] at hk
      exact hwf j _ o hj hopn k hk
  have hf₁ : setupGate ⟨vv, rg, gr, opf, cnt, sc, cc⟩ (T - 1 + 1) = false := by
    by_cases hcz : cnt = 0
    · subst hcz
      have hopn : opf.isSome = false := by
        rcases opf with _ | o
        · rfl
        · exact absurd ⟨rfl, rfl⟩ hcase
      simp [setupGate, hopn]
    · simp [setupGate, hcz]
  have hne : (cnt + 1 == (0 : Int)) = false := by
    simp only [beq_eq_false_iff_ne, ne_eq]
    omega
  have hf₂ : setupGate ⟨vv, rg, gr, opf, cnt + 1, sc, cc⟩ (T - 1) = false := by
    simp [setupGate, hne]
  have hvis := closure_visit setupGate g j
    ⟨vv, rg, gr, opf, cnt, sc, cc⟩
    ⟨vv, rg, gr, opf, cnt + 1, sc, cc⟩
    q (fun _ => 0) (T - 1) false false hwf hj hople rfl
    (by rw [← hTdef]; omega)
    hf₁ hf₂
    (fun k hk => by simp)
    rfl
    q (fun k => by simp)
  have hset : (g.set j (⟨vv, rg, gr, opf, cnt + 1, sc, cc⟩ : Value))[j]?
      = some ⟨vv, rg, gr, opf, cnt + 1, sc, cc⟩ :=
    List.getElem?_set_self hjlen
  constructor
  · intro k
    rcases eq_or_ne k j with rfl | hk
    · simp only [regTotal, cntOf, hset, hj, hvis.2, ← hTdef]
      omega
    · simp only [regTotal, cntOf, List.getElem?_set_ne (Ne.symm hk), hvis.1 k hk]
  · intro k
    rcases eq_or_ne k j with rfl | hk
    · simp only [fvTotal, hset, hj, hvis.2, ← hTdef]
      rw [if_neg (by intro hcontr; have h1 := hcontr.1; omega)]
      rw [if_neg (fun hcontr => hcase ⟨hcontr.1, hcontr.2.2⟩)]
    · simp only [fvTotal, List.getElem?_set_ne (Ne.symm hk), hvis.1 k hk]

lemma bump_cons (a : Nat) (l : List Nat) (q : Nat → Nat) (k : Nat) :
    bump (a :: l) q k = bump [a] (bump l q) k := by
  simp only [bump_apply, List.count_cons, List.count_nil]
  omega

lemma bump_nil (q : Nat → Nat) : bump [] q = q :=
  funext fun k => by simp [bump_apply, List.count_nil]

/-- Execution of the setup pass: it succeeds given enough fuel, keeps
the `setupStat` fields and nonnegative counters, and preserves the
`regTotal` and `fvTotal` invariants exactly. -/
lemma setup_exec :
    ∀ fuel : Nat,
      (∀ (g : Graph) (j : Nat), wfOps g → cntNonneg g →
        j < g.length → j + 1 ≤ fuel →
        ∃ g', backprop_setup fuel g j = some g'
          ∧ SetupFrame g g' ∧ cntNonneg g'
          ∧ (∀ (q : Nat → Nat) (k : Nat), regTotal g' q k = regTotal g (bump [j] q) k)
          ∧ (∀ (q : Nat → Nat) (k : Nat), fvTotal g' q k = fvTotal g (bump [j] q) k))
      ∧ (∀ (l : List Nat) (g : Graph), wfOps g → cntNonneg g →
        (∀ a ∈ l, a < g.length ∧ a + 1 ≤ fuel) →
        ∃ g', l.foldlM (backprop_setup fuel) g = some g'
          ∧ SetupFrame g g' ∧ cntNonneg g'
          ∧ (∀ (q : Nat → Nat) (k : Nat), regTotal g' q k = regTotal g (bump l q) k)
          ∧ (∀ (q : Nat → Nat) (k : Nat), fvTotal g' q k = fvTotal g (bump l q) k)) := by
  intro fuel
  induction fuel with
  | zero =>
    constructor
    · intro g j _ _ _ hfuel
      omega
    · intro l g hwf hnn hbound
      cases l with
      | nil =>
        refine ⟨g, by simp [List.foldlM_nil], setupFrame_refl g, hnn, ?_, ?_⟩ <;>
          (intro q k
           rw [bump_nil])
      | cons a l =>
        exact absurd (hbound a (List.mem_cons_self a l)).2 (by omega)
  | succ fuel ih =>
    have hsingle : ∀ (g : Graph) (j : Nat), wfOps g → cntNonneg g →
        j < g.length → j ≤ fuel →
        ∃ g', backprop_setup (fuel+1) g j = some g'
          ∧ SetupFrame g g' ∧ cntNonneg g'
          ∧ (∀ (q : Nat → Nat) (k : Nat), regTotal g' q k = regTotal g (bump [j] q) k)
          ∧ (∀ (q : Nat → Nat) (k : Nat), fvTotal g' q k = fvTotal g (bump [j] q) k) := by
      intro g j hwf hnn hjlen hjf
      rcases hgj : g[j]? with _ | nd
      · rw [List.getElem?_eq_none_iff] at hgj
        omega
      · obtain ⟨vv, rg, gr, opf, cnt, sc, cc⟩ := nd
        have hcnt0 : (0 : Int) ≤ cnt := hnn j _ hgj
        by_cases hc : cnt + 1 = (1 : Int)
        · have hc0 : cnt = 0 := by omega
          subst hc0
          rcases hopf : opf with _ | o
          · subst hopf
            refine ⟨g.set j ⟨vv, rg, gr, none, 0 + 1, sc, cc⟩, ?_,
              setupFrame_set hgj rfl, cntNonneg_set hnn hgj (by norm_num), ?_, ?_⟩
            · simp only [backprop_setup, hgj]
              rw [if_pos (by norm_num)]
            · intro q k
              exact (setup_visit_nofire g j _ q hwf hgj (by norm_num) (by simp)).1 k
            · intro q k
              exact (setup_visit_nofire g j _ q hwf hgj (by norm_num) (by simp)).2 k
          · subst hopf
            have hfr2 : SetupFrame g (g.set j ⟨vv, rg, gr, some o, 0 + 1, sc + 1, cc⟩) :=
              setupFrame_set hgj rfl
            have hwf2 := wfOps_of_setupFrame hfr2 hwf
            have hnn2 : cntNonneg (g.set j ⟨vv, rg, gr, some o, 0 + 1, sc + 1, cc⟩) :=
              cntNonneg_set hnn hgj (by norm_num)
            have hlen2 : (g.set j (⟨vv, rg, gr, some o, 0 + 1, sc + 1, cc⟩ : Value)).length
                = g.length := List.length_set g j _
            have hbnd : ∀ a ∈ o.inputs,
                a < (g.set j (⟨vv, rg, gr, some o, 0 + 1, sc + 1, cc⟩ : Value)).length
                ∧ a + 1 ≤ fuel := by
              intro a ha
              have haj := hwf j _ o hgj rfl a ha
              rw [hlen2]
              omega
            obtain ⟨g3, hfold, hfr3, hnn3, hreg3, hfv3⟩ :=
              ih.2 o.inputs _ hwf2 hnn2 hbnd
            refine ⟨g3, ?_, setupFrame_trans hfr2 hfr3, hnn3, ?_, ?_⟩
            · simp only [backprop_setup, hgj]
              rw [if_pos (by norm_num)]
              rw [List.set_set]
              exact hfold
            · intro q k
              rw [hreg3 q k]
              exact (setup_visit_fire g j ⟨vv, rg, gr, some o, 0, sc, cc⟩ o q hwf hgj
                rfl rfl).1 k
            · intro q k
              rw [hfv3 q k]
              exact (setup_visit_fire g j ⟨vv, rg, gr, some o, 0, sc, cc⟩ o q hwf hgj
                rfl rfl).2 k
        · refine ⟨g.set j ⟨vv, rg, gr, opf, cnt + 1, sc, cc⟩, ?_,
            setupFrame_set hgj rfl,
            cntNonneg_set hnn hgj (by change (0 : Int) ≤ cnt + 1; omega), ?_, ?_⟩
          · simp only [backprop_setup, hgj]
            rw [if_neg hc]
          · intro q k
            exact (setup_visit_nofire g j _ q hwf hgj hcnt0
              (fun hcontr => hc (by have := hcontr.1; simp only at this; omega))).1 k
          · intro q k
            exact (setup_visit_nofire g j _ q hwf hgj hcnt0
              (fun hcontr => hc (by have := hcontr.1; simp only at this; omega))).2 k
    refine ⟨fun g j hwf hnn hjl hjf => hsingle g j hwf hnn hjl (by omega), ?_⟩
    intro l
    induction l with
    | nil =>
      intro g hwf hnn _
      refine ⟨g, by simp [List.foldlM_nil], setupFrame_refl g, hnn, ?_, ?_⟩ <;>
        (intro q k
         rw [bump_nil])
    | cons a l ihl =>
      intro g hwf hnn hb
      obtain ⟨gmid, hstep, hfr1, hnn1, hreg1, hfv1⟩ :=
        hsingle g a hwf hnn (hb a (List.mem_cons_self a l)).1
          (by have := (hb a (List.mem_cons_self a l)).2; omega)
      obtain ⟨g', hfold, hfr2, hnn2, hreg2, hfv2⟩ :=
        ihl gmid (wfOps_of_setupFrame hfr1 hwf) hnn1
          (fun b hbm => by
            have hbb := hb b (List.mem_cons_of_mem a hbm)
            rw [setupFrame_length hfr1]
            exact hbb)
      refine ⟨g', ?_, setupFrame_trans hfr1 hfr2, hnn2, ?_, ?_⟩
      · rw [List.foldlM_cons, hstep]
        simp only [Option.bind_eq_bind, Option.some_bind]
        exact hfold
      · intro q k
        rw [hreg2 q k, hreg1 (bump l q) k,
          show bump [a] (bump l q) = bump (a :: l) q from
            funext fun m => (bump_cons a l q m).symm]
      · intro q k
        rw [hfv2 q k, hfv1 (bump l q) k,
          show bump [a] (bump l q) = bump (a :: l) q from
            funext fun m => (bump_cons a l q m).symm]

lemma calcFrame_some {g g' : Graph} (h : CalcFrame g g') {k : Nat} {nd : Value}
    (hk : g[k]? = some nd) :
    ∃ nd', g'[k]? = some nd' ∧ nd'.v = nd.v ∧ nd'.requires_grad = nd.requires_grad
      ∧ nd'.op = nd.op ∧ nd'.op_setup_calls = nd.op_setup_calls := by
  have hmap := h.1 k
  rw [hk] at hmap
  rcases hk' : g'[k]? with _ | nd'
  · rw [hk'] at hmap
    simp at hmap
  · rw [hk'] at hmap
    simp only [Option.map_some', Option.some.injEq, calcStat, Prod.mk.injEq] at hmap
    exact ⟨nd', rfl, hmap.1, hmap.2.1, hmap.2.2.1, hmap.2.2.2⟩

lemma calcFrame_none_iff {g g' : Graph} (h : CalcFrame g g') (k : Nat) :
    g[k]? = none ↔ g'[k]? = none := by
  have hmap := h.1 k
  constructor
  · intro hk
    rw [hk] at hmap
    rcases hk' : g'[k]? with _ | nd'
    · rfl
    · rw [hk'] at hmap
      simp at hmap
  · intro hk
    rw [hk] at hmap
    rcases hk' : g[k]? with _ | nd
    · rfl
    · rw [hk'] at hmap
      simp at hmap

lemma calcFrame_length {g g' : Graph} (h : CalcFrame g g') :
    g'.length = g.length :=
  length_eq_of_getElem?_none_iff (fun k => (calcFrame_none_iff h k).symm)

lemma wfOps_of_calcFrame {g g' : Graph} (hf : CalcFrame g g') (hwf : wfOps g) :
    wfOps g' := by
  intro i nd' o hgi' hop'
  have hmap := hf.1 i
  rw [hgi'] at hmap
  rcases hgi : g[i]? with _ | nd
  · rw [hgi] at hmap
    simp at hmap
  · rw [hgi] at hmap
    simp only [Option.map_some', Option.some.injEq, calcStat, Prod.mk.injEq] at hmap
    exact hwf i nd o hgi (by rw [← hmap.2.2.1, hop'])

lemma opImpliesRg_of_calcFrame {g g' : Graph} (hf : CalcFrame g g')
    (hrg : opImpliesRg g) : opImpliesRg g' := by
  intro i nd' hgi' hop'
  have hmap := hf.1 i
  rw [hgi'] at hmap
  rcases hgi : g[i]? with _ | nd
  · rw [hgi] at hmap
    simp at hmap
  · rw [hgi] at hmap
    simp only [Option.map_some', Option.some.injEq, calcStat, Prod.mk.injEq] at hmap
    rw [hmap.2.1]
    exact hrg i nd hgi (by rw [← hmap.2.2.1]; exact hop')

/-! One calc delivery at a node: the balance invariant is preserved. -/

lemma calc_bal_nonrg (g : Graph) (j : Nat) (nd : Value) (q : Nat → Nat)
    (hwf : wfOps g) (hj : g[j]? = some nd) (hrg : nd.requires_grad = false)
    (hB : Bal g (bump [j] q)) : Bal g q := by
  set T := closure calcGate g (bump [j] q) j with hTdef
  have hT1 : 1 ≤ T := by
    have hm := closureAux_mono calcGate g g.length (bump [j] q) j
    have hb : bump [j] q j = q j + 1 := by
      simp [bump_apply, List.count_cons, List.count_nil]
    rw [closure] at hTdef
    omega
  have hople : ∀ k ∈ opInputs nd.op, k < j := by
    intro k hk
    rcases hopn : nd.op with _ | o
    · rw [hopn] at hk
      exact absurd hk (List.not_mem_nil k)
    · rw [hopn] at hk
      exact hwf j nd o hj hopn k hk
  have hf : ∀ a : Nat, calcGate nd a = false := by
    intro a
    simp [calcGate, hrg]
  have hmaster := closure_master calcGate g g j nd nd (fun _ => 0) (T - 1) false false
    hwf (fun k _ => rfl) hj hj rfl (hf _) (hf _) hople
    (fun k hk => by simp)
    g.length (bump [j] q) q
    (fun _ => ⟨fun k hk => by
        simp only [bump_apply]
        have : ([j] : List Nat).count k = 0 := by
          rw [List.count_eq_zero, List.mem_singleton]
          exact fun hm => hk hm
        omega,
      by
        simp only [bump_apply]
        have : ([j] : List Nat).count j = 1 := by
          simp [List.count_cons, List.count_nil]
        omega,
      by rw [← closure, ← hTdef]; omega⟩)
    (fun hc => absurd (lt_of_getElem?_eq_some hj) (by omega))
  intro k ndk hk hrgk
  rcases eq_or_ne k j with rfl | hkj
  · rw [hj] at hk
    cases hk
    rw [hrg] at hrgk
    exact Bool.noConfusion hrgk
  · rw [closure, ← hmaster.1 k hkj, ← closure]
    exact hB k ndk hk hrgk

lemma calc_bal_visit (g : Graph) (j : Nat) (nd nd₂ : Value) (q : Nat → Nat)
    (hwf : wfOps g) (hj : g[j]? = some nd) (hrg : nd.requires_grad = true)
    (hrg2 : nd₂.requires_grad = true) (hop2 : nd₂.op = nd.op)
    (hcnt2 : nd₂.backprop_count = nd.backprop_count - 1)
    (hB : Bal g (bump [j] q)) :
    (nd.backprop_count = 1 → Bal (g.set j nd₂) (bump (opInputs nd.op) q))
    ∧ (2 ≤ nd.backprop_count → Bal (g.set j nd₂) q) := by
  have hjlen : j < g.length := lt_of_getElem?_eq_some hj
  set T := closure calcGate g (bump [j] q) j with hTdef
  have hTc : (T : Int) = nd.backprop_count := hB j nd hj hrg
  have hT1 : 1 ≤ T := by
    have hm := closureAux_mono calcGate g g.length (bump [j] q) j
    have hb : bump [j] q j = q j + 1 := by
      simp [bump_apply, List.count_cons, List.count_nil]
    rw [closure] at hTdef
    omega
  have hople : ∀ k ∈ opInputs nd.op, k < j := by
    intro k hk
    rcases hopn : nd.op with _ | o
    · rw [hopn] at hk
      exact absurd hk (List.not_mem_nil k)
    · rw [hopn] at hk
      exact hwf j nd o hj hopn k hk
  have hcntj : (opInputs nd.op).count j = 0 := by
    rw [List.count_eq_zero]
    intro hm
    exact absurd (hople j hm) (lt_irrefl j)
  have hset : (g.set j nd₂)[j]? = some nd₂ := List.getElem?_set_self hjlen
  constructor
  · -- the delivery completes the count: the node fires its producer
    intro hc1
    have hT : T = 1 := by omega
    have hf₁ : calcGate nd (T - 1 + 1) = nd.op.isSome := by
      rcases hsome : nd.op.isSome with _ | _
      · simp [calcGate, hsome]
      · simp [calcGate, hrg, hsome, hT, hc1]
    have hf₂ : calcGate nd₂ (T - 1) = false := by
      rw [hT]
      exact calcGate_zero nd₂
    have hvis := closure_visit calcGate g j nd nd₂ q
      (fun k => (opInputs nd.op).count k) (T - 1) nd.op.isSome false hwf hj hople hop2
      (by rw [← hTdef]; omega)
      hf₁ hf₂
      (fun k hk => by
        rcases hopn : nd.op with _ | o <;> simp [hopn, opInputs])
      hcntj
      (bump (opInputs nd.op) q) (fun k => by simp [bump_apply])
    intro k ndk hk hrgk
    rcases eq_or_ne k j with rfl | hkj
    · rw [hset] at hk
      cases hk
      rw [hvis.2, hcnt2]
      omega
    · rw [List.getElem?_set_ne (Ne.symm hkj)] at hk
      rw [hvis.1 k hkj]
      exact hB k ndk hk hrgk
  · -- more deliveries still to come: no fire yet
    intro hc2
    have hT2 : 2 ≤ T := by omega
    have hf₁ : calcGate nd (T - 1 + 1) = nd.op.isSome := by
      rcases hsome : nd.op.isSome with _ | _
      · simp [calcGate, hsome]
      · simp only [calcGate, hrg, hsome, Bool.true_and, Bool.and_true]
        have h1 : ((T - 1 + 1 : Nat) : Int) == nd.backprop_count := by
          simp only [beq_iff_eq]
          omega
        have h2 : (T - 1 + 1 != 0) = true := by
          simp only [bne_iff_ne, ne_eq]
          omega
        rw [h1, h2]
        simp
    have hf₂ : calcGate nd₂ (T - 1) = nd.op.isSome := by
      rcases hsome : nd.op.isSome with _ | _
      · simp [calcGate, hop2, hsome]
      · simp only [calcGate, hrg2, hop2, hsome, Bool.true_and, Bool.and_true]
        have h1 : ((T - 1 : Nat) : Int) == nd₂.backprop_count := by
          simp only [beq_iff_eq]
          omega
        have h2 : ((T - 1 : Nat) != 0) = true := by
          simp only [bne_iff_ne, ne_eq]
          omega
        rw [h1, h2]
        simp
    have hvis := closure_visit calcGate g j nd nd₂ q
      (fun _ => 0) (T - 1) nd.op.isSome nd.op.isSome hwf hj hople hop2
      (by rw [← hTdef]; omega)
      hf₁ hf₂
      (fun k hk => by simp)
      rfl
      q (fun k => by simp)
    intro k ndk hk hrgk
    rcases eq_or_ne k j with rfl | hkj
    · rw [hset] at hk
      cases hk
      rw [hvis.2, hcnt2]
      omega
    · rw [List.getElem?_set_ne (Ne.symm hkj)] at hk
      rw [hvis.1 k hkj]
      exact hB k ndk hk hrgk

lemma bump_pair (a b : Nat) (q : Nat → Nat) :
    bump [a, b] q = bump [a] (bump [b] q) :=
  funext fun m => bump_cons a [b] q m

/-- Execution of the calc pass from a balanced state: it returns
normally (in particular the internal assertion never fires), respects
the calc frame, and leaves a state balanced for the remaining pending
deliveries. -/
lemma calc_exec :
    ∀ (fuel : Nat) (g : Graph) (j : Nat) (go : Rat) (q : Nat → Nat),
      wfOps g → opImpliesRg g → j < g.length → j + 1 ≤ fuel →
      Bal g (bump [j] q) →
      ∃ g', backprop_calc fuel g j go = .ok g' ∧ CalcFrame g g' ∧ Bal g' q := by
  intro fuel
  induction fuel with
  | zero =>
    intro g j go q _ _ _ hf _
    omega
  | succ fuel ih =>
    intro g j go q hwf hrg hjlen hjf hB
    rcases hgj : g[j]? with _ | nd
    · rw [List.getElem?_eq_none_iff] at hgj
      omega
    · obtain ⟨vv, rgf, gr, opf, cnt, sc, cc⟩ := nd
      rcases rgf with _ | _
      · refine ⟨g, ?_, calcFrame_refl g, calc_bal_nonrg g j _ q hwf hgj rfl hB⟩
        simp only [backprop_calc, hgj]
        simp
      · have hTc := hB j _ hgj rfl
        simp only at hTc
        set T := closure calcGate g (bump [j] q) j with hTdef
        have hT1 : 1 ≤ T := by
          have hm := closureAux_mono calcGate g g.length (bump [j] q) j
          have hb : bump [j] q j = q j + 1 := by
            simp [bump_apply, List.count_cons, List.count_nil]
          rw [closure] at hTdef
          omega
        have hcnt1 : (1 : Int) ≤ cnt := by omega
        by_cases hz : cnt - 1 = (0 : Int)
        · rcases hopf : opf with _ | o
          · subst hopf
            refine ⟨g.set j ⟨vv, true, some (gr.getD 0 + go), none, cnt - 1, sc, cc⟩,
              ?_, calcFrame_set hgj rfl rfl, ?_⟩
            · simp only [backprop_calc, hgj]
              rw [if_pos trivial, if_neg (by omega), if_pos hz]
            · have hv := (calc_bal_visit g j _
                ⟨vv, true, some (gr.getD 0 + go), none, cnt - 1, sc, cc⟩ q
                hwf hgj rfl rfl rfl rfl hB).1 (by show cnt = (1:Int); omega)
              rwa [show opInputs (none : Option Op) = [] from rfl, bump_nil] at hv
          · subst hopf
            have hfr2 : CalcFrame g
                (g.set j ⟨vv, true, some (gr.getD 0 + go), some o, cnt - 1, sc, cc + 1⟩) :=
              calcFrame_set hgj rfl rfl
            have hB2 := (calc_bal_visit g j _
              ⟨vv, true, some (gr.getD 0 + go), some o, cnt - 1, sc, cc + 1⟩ q
              hwf hgj rfl rfl rfl rfl hB).1 (by show cnt = (1:Int); omega)
            have hwf2 := wfOps_of_calcFrame hfr2 hwf
            have hrg2 := opImpliesRg_of_calcFrame hfr2 hrg
            have hlen2 : (g.set j
                (⟨vv, true, some (gr.getD 0 + go), some o, cnt - 1, sc, cc + 1⟩ : Value)).length
                = g.length := List.length_set g j _
            have hbnd : ∀ m ∈ o.inputs, m < j := hwf j _ o hgj rfl
            rcases o with ⟨a, b⟩ | ⟨a, b⟩ | ⟨a, b⟩ | a
            · -- AddOp
              have haj : a < j := hbnd a (by simp [Op.inputs])
              have hbj : b < j := hbnd b (by simp [Op.inputs])
              rw [show opInputs (some (Op.add a b)) = [a, b] from rfl, bump_pair] at hB2
              obtain ⟨g3, hc3, hfr3, hB3⟩ := ih _ a (gr.getD 0 + go) (bump [b] q)
                hwf2 hrg2 (by rw [hlen2]; omega) (by omega) hB2
              obtain ⟨g4, hc4, hfr4, hB4⟩ := ih g3 b (gr.getD 0 + go) q
                (wfOps_of_calcFrame hfr3 hwf2) (opImpliesRg_of_calcFrame hfr3 hrg2)
                (by rw [calcFrame_length hfr3, hlen2]; omega) (by omega) hB3
              refine ⟨g4, ?_, calcFrame_trans hfr2 (calcFrame_trans hfr3 hfr4), hB4⟩
              simp only [backprop_calc, hgj]
              rw [if_pos trivial, if_neg (by omega), if_pos hz]
              rw [List.set_set]
              rw [hc3]
              exact hc4
            · -- SubOp
              have haj : a < j := hbnd a (by simp [Op.inputs])
              have hbj : b < j := hbnd b (by simp [Op.inputs])
              rw [show opInputs (some (Op.sub a b)) = [a, b] from rfl, bump_pair] at hB2
              obtain ⟨g3, hc3, hfr3, hB3⟩ := ih _ a (gr.getD 0 + go) (bump [b] q)
                hwf2 hrg2 (by rw [hlen2]; omega) (by omega) hB2
              obtain ⟨g4, hc4, hfr4, hB4⟩ := ih g3 b (-(gr.getD 0 + go)) q
                (wfOps_of_calcFrame hfr3 hwf2) (opImpliesRg_of_calcFrame hfr3 hrg2)
                (by rw [calcFrame_length hfr3, hlen2]; omega) (by omega) hB3
              refine ⟨g4, ?_, calcFrame_trans hfr2 (calcFrame_trans hfr3 hfr4), hB4⟩
              simp only [backprop_calc, hgj]
              rw [if_pos trivial, if_neg (by omega), if_pos hz]
              rw [List.set_set]
              rw [hc3]
              exact hc4
            · -- MulOp
              have haj : a < j := hbnd a (by simp [Op.inputs])
              have hbj : b < j := hbnd b (by simp [Op.inputs])
              rw [show opInputs (some (Op.mul a b)) = [a, b] from rfl, bump_pair] at hB2
              rcases hnb : (g.set j
                  (⟨vv, true, some (gr.getD 0 + go), some (Op.mul a b), cnt - 1, sc,
                    cc + 1⟩ : Value))[b]? with _ | nb
              · rw [List.getElem?_eq_none_iff, hlen2] at hnb
                omega
              · obtain ⟨g3, hc3, hfr3, hB3⟩ := ih _ a ((gr.getD 0 + go) * nb.v) (bump [b] q)
                  hwf2 hrg2 (by rw [hlen2]; omega) (by omega) hB2
                rcases hna : g3[a]? with _ | na
                · rw [List.getElem?_eq_none_iff, calcFrame_length hfr3, hlen2] at hna
                  omega
                · obtain ⟨g4, hc4, hfr4, hB4⟩ := ih g3 b ((gr.getD 0 + go) * na.v) q
                    (wfOps_of_calcFrame hfr3 hwf2) (opImpliesRg_of_calcFrame hfr3 hrg2)
                    (by rw [calcFrame_length hfr3, hlen2]; omega) (by omega) hB3
                  refine ⟨g4, ?_, calcFrame_trans hfr2 (calcFrame_trans hfr3 hfr4), hB4⟩
                  simp only [backprop_calc, hgj]
                  rw [if_pos trivial, if_neg (by omega), if_pos hz]
                  rw [List.set_set]
                  simp only [hnb, hc3, hna]
                  exact hc4
            · -- PassThroughOp
              have haj : a < j := hbnd a (by simp [Op.inputs])
              rw [show opInputs (some (Op.passthrough a)) = [a] from rfl] at hB2
              obtain ⟨g3, hc3, hfr3, hB3⟩ := ih _ a (gr.getD 0 + go) q
                hwf2 hrg2 (by rw [hlen2]; omega) (by omega) hB2
              refine ⟨g3, ?_, calcFrame_trans hfr2 hfr3, hB3⟩
              simp only [backprop_calc, hgj]
              rw [if_pos trivial, if_neg (by omega), if_pos hz]
              rw [List.set_set]
              exact hc3
        · refine ⟨g.set j ⟨vv, true, some (gr.getD 0 + go), opf, cnt - 1, sc, cc⟩,
            ?_, calcFrame_set hgj rfl rfl, ?_⟩
          · simp only [backprop_calc, hgj]
            rw [if_pos trivial, if_neg (by omega), if_neg hz]
          · exact (calc_bal_visit g j _
              ⟨vv, true, some (gr.getD 0 + go), opf, cnt - 1, sc, cc⟩ q
              hwf hgj rfl rfl rfl rfl hB).2 (by show (2:Int) ≤ cnt; omega)

lemma opImpliesRg_of_setupFrame {g g' : Graph} (hf : SetupFrame g g')
    (hrg : opImpliesRg g) : opImpliesRg g' := by
  intro i nd' hgi' hop'
  have hmap := hf i
  rw [hgi'] at hmap
  rcases hgi : g[i]? with _ | nd
  · rw [hgi] at hmap
    simp at hmap
  · rw [hgi] at hmap
    simp only [Option.map_some', Option.some.injEq, setupStat, Prod.mk.injEq] at hmap
    rw [hmap.2.1]
    exact hrg i nd hgi (by rw [← hmap.2.2.2.1]; exact hop')

/-- After a setup pass whose counters realise the setup closure, the
calc-pass closure over the new state computes exactly the same totals
as the setup-pass closure did over the fresh state. -/
lemma closure_sync (g₀ g₁ : Graph) (p : Nat → Nat)
    (hwf : wfOps g₀)
    (hrgop : opImpliesRg g₀)
    (hfresh : ∀ (k : Nat) (nd : Value), g₀[k]? = some nd → nd.backprop_count = 0)
    (hchar : ∀ (k : Nat) (nd₀ : Value), g₀[k]? = some nd₀ →
      ∃ nd₁, g₁[k]? = some nd₁ ∧ nd₁.requires_grad = nd₀.requires_grad
        ∧ nd₁.op = nd₀.op
        ∧ nd₁.backprop_count = (closure setupGate g₀ p k : Int))
    (hnone : ∀ k : Nat, g₀[k]? = none ↔ g₁[k]? = none) :
    ∀ (c : Nat) (acc : Nat → Nat),
      (∀ k : Nat, closureAux setupGate g₀ c acc k = closure setupGate g₀ p k) →
      ∀ k : Nat, closureAux calcGate g₁ c acc k = closure setupGate g₀ p k := by
  intro c
  induction c with
  | zero =>
    intro acc hacc k
    exact hacc k
  | succ c ih =>
    intro acc hacc k
    have haccc : acc c = closure setupGate g₀ p c := by
      have hhi := closureAux_hi setupGate g₀ hwf (c+1) acc c (Nat.le_refl _)
      rw [← hacc c, hhi]
    rw [closureAux]
    rcases hg0c : g₀[c]? with _ | nd₀
    · have hg1c : g₁[c]? = none := (hnone c).mp hg0c
      have hstep0 : closureStep setupGate g₀ c acc = acc := by
        funext m
        simp only [closureStep, hg0c]
      have hstep1 : closureStep calcGate g₁ c acc = acc := by
        funext m
        simp only [closureStep, hg1c]
      rw [hstep1]
      refine ih acc ?_ k
      intro m
      have hm := hacc m
      rw [closureAux, hstep0] at hm
      exact hm
    · obtain ⟨nd₁, hg1c, hrg1, hop1, hcnt1⟩ := hchar c nd₀ hg0c
      have hc0 : nd₀.backprop_count = 0 := hfresh c nd₀ hg0c
      have hgate : calcGate nd₁ (acc c) = setupGate nd₀ (acc c) := by
        rcases hsome : nd₀.op.isSome with _ | _
        · simp [calcGate, setupGate, hop1, hsome]
        · have hrgt : nd₀.requires_grad = true := hrgop c nd₀ hg0c hsome
          have hbeq : ((acc c : Int) == nd₁.backprop_count) = true := by
            simp only [beq_iff_eq]
            rw [hcnt1, haccc]
          simp [calcGate, setupGate, hop1, hrg1, hrgt, hsome, hbeq, hc0]
      have hstepeq : closureStep calcGate g₁ c acc = closureStep setupGate g₀ c acc := by
        funext m
        simp only [closureStep, hg0c, hg1c, hgate, hop1]
      rw [hstepeq]
      refine ih (closureStep setupGate g₀ c acc) ?_ k
      intro m
      have hm := hacc m
      rw [closureAux] at hm
      exact hm

/-! Bridges from the decidable checkers to the Prop invariants. -/

lemma mem_of_getElem?_eq_some {g : Graph} {k : Nat} {nd : Value}
    (h : g[k]? = some nd) : nd ∈ g := by
  induction g generalizing k with
  | nil => simp at h
  | cons a t ih =>
    cases k with
    | zero =>
      simp only [List.getElem?_cons_zero, Option.some.injEq] at h
      rw [h]
      exact List.mem_cons_self nd t
    | succ k =>
      simp only [List.getElem?_cons_succ] at h
      exact List.mem_cons_of_mem a (ih h)

lemma wfOps_of_wfB {g : Graph} (h : wfB g = true) : wfOps g := by
  intro i nd o hgi hop m hm
  have hi : i < g.length := lt_of_getElem?_eq_some hgi
  have h1 := List.all_eq_true.mp h i (List.mem_range.mpr hi)
  simp only [hgi] at h1
  rw [hop] at h1
  simp only [opInputs, List.all_eq_true] at h1
  exact of_decide_eq_true (h1 m hm)

lemma opImpliesRg_of_opRgB {g : Graph} (h : opRgB g = true) : opImpliesRg g := by
  intro i nd hgi hop
  simp only [opRgB, List.all_eq_true] at h
  have h1 := h nd (mem_of_getElem?_eq_some hgi)
  rw [hop] at h1
  simpa using h1

lemma fresh_of_freshB {g : Graph} (h : freshB g = true) :
    ∀ (k : Nat) (nd : Value), g[k]? = some nd → nd.backprop_count = 0 := by
  intro k nd hk
  simp only [freshB, List.all_eq_true] at h
  have h1 := h nd (mem_of_getElem?_eq_some hk)
  simpa using h1

lemma ghost0_of_ghost0B {g : Graph} (h : ghost0B g = true) :
    ∀ (k : Nat) (nd : Value), g[k]? = some nd → nd.op_setup_calls = 0 := by
  intro k nd hk
  simp only [ghost0B, List.all_eq_true] at h
  have h1 := h nd (mem_of_getElem?_eq_some hk)
  simpa using h1

/-! End-to-end execution of `backward` from a fresh well-formed state. -/

lemma backward_exec (g : Graph) (r fuel : Nat)
    (hwf : wfOps g) (hrg : opImpliesRg g)
    (hfresh : ∀ (k : Nat) (nd : Value), g[k]? = some nd → nd.backprop_count = 0)
    (hr : r < g.length) (hfu : r + 1 ≤ fuel) :
    ∃ g₁ g₂, backprop_setup fuel g r = some g₁
      ∧ backprop_calc fuel g₁ r 1 = .ok g₂
      ∧ backward fuel g r = .ok g₂
      ∧ SetupFrame g g₁ ∧ CalcFrame g₁ g₂
      ∧ (∀ (k : Nat) (nd₁ : Value), g₁[k]? = some nd₁ →
          nd₁.backprop_count = (closure setupGate g (bump [r] noPending) k : Int))
      ∧ (∀ (k : Nat) (nd₂ : Value), g₂[k]? = some nd₂ → nd₂.requires_grad = true →
          nd₂.backprop_count = 0)
      ∧ (∀ (k : Nat) (nd₂ : Value), g₂[k]? = some nd₂ → 0 ≤ nd₂.backprop_count) := by
  have hnn : cntNonneg g := fun k nd hk => (hfresh k nd hk).ge
  obtain ⟨g₁, hset, hfr₁, hnn₁, hreg, hfv⟩ := (setup_exec fuel).1 g r hwf hnn hr hfu
  have hchar : ∀ (k : Nat) (nd₁ : Value), g₁[k]? = some nd₁ →
      nd₁.backprop_count = (closure setupGate g (bump [r] noPending) k : Int) := by
    intro k nd₁ hk
    have h0 := hreg noPending k
    have hz1 : closure setupGate g₁ noPending k = 0 :=
      closureAux_of_zero setupGate g₁ setupGate_zero g₁.length noPending (fun _ => rfl) k
    have hcnt0 : cntOf g k = 0 := by
      rcases hgk : g[k]? with _ | nd₀
      · simp [cntOf, hgk]
      · simp [cntOf, hgk, hfresh k nd₀ hgk]
    simp only [regTotal] at h0
    rw [hz1, hcnt0] at h0
    simp only [cntOf, hk] at h0
    omega
  have hchar' : ∀ (k : Nat) (nd₀ : Value), g[k]? = some nd₀ →
      ∃ nd₁, g₁[k]? = some nd₁ ∧ nd₁.requires_grad = nd₀.requires_grad
        ∧ nd₁.op = nd₀.op
        ∧ nd₁.backprop_count = (closure setupGate g (bump [r] noPending) k : Int) := by
    intro k nd₀ hk
    obtain ⟨nd₁, hk₁, _, hrg₁, _, hop₁, _⟩ := setupFrame_some hfr₁ hk
    exact ⟨nd₁, hk₁, hrg₁, hop₁, hchar k nd₁ hk₁⟩
  have hsync := closure_sync g g₁ (bump [r] noPending) hwf hrg hfresh hchar'
      (fun k => setupFrame_none_iff hfr₁ k) g.length (bump [r] noPending) (fun k => rfl)
  have hlen₁ : g₁.length = g.length := setupFrame_length hfr₁
  have hBal : Bal g₁ (bump [r] noPending) := by
    intro j nd₁ hj hrgj
    rw [closure, hlen₁, hsync j]
    exact (hchar j nd₁ hj).symm
  have hwf₁ : wfOps g₁ := wfOps_of_setupFrame hfr₁ hwf
  have hrg₁ : opImpliesRg g₁ := opImpliesRg_of_setupFrame hfr₁ hrg
  obtain ⟨g₂, hcalc, hfr₂, hBal₂⟩ :=
    calc_exec fuel g₁ r 1 noPending hwf₁ hrg₁ (by rw [hlen₁]; exact hr) hfu hBal
  have hzero : ∀ (k : Nat) (nd₂ : Value), g₂[k]? = some nd₂ → nd₂.requires_grad = true →
      nd₂.backprop_count = 0 := by
    intro k nd₂ hk hrgk
    have hb := hBal₂ k nd₂ hk hrgk
    have hz : closure calcGate g₂ noPending k = 0 :=
      closureAux_of_zero calcGate g₂ calcGate_zero g₂.length noPending (fun _ => rfl) k
    rw [hz] at hb
    omega
  refine ⟨g₁, g₂, hset, hcalc, ?_, hfr₁, hfr₂, hchar, hzero, ?_⟩
  · simp only [backward, hset]
    exact hcalc
  · intro k nd₂ hk
    rcases hrgk : nd₂.requires_grad with _ | _
    · have hk₁ : ∃ nd₁, g₁[k]? = some nd₁ := by
        rcases h1 : g₁[k]? with _ | nd₁
        · rw [(calcFrame_none_iff hfr₂ k).mp h1] at hk
          exact absurd hk (by simp)
        · exact ⟨nd₁, rfl⟩
      obtain ⟨nd₁, hk₁⟩ := hk₁
      have hrg₁k : nd₁.requires_grad = false := by
        obtain ⟨nd₂x, hk₂, _, hrgx, _, _⟩ := calcFrame_some hfr₂ hk₁
        rw [hk] at hk₂
        rw [← Option.some.inj hk₂, hrgk] at hrgx
        exact hrgx.symm
      have huntouched := hfr₂.2 k nd₁ hk₁ hrg₁k
      rw [huntouched] at hk
      rw [← Option.some.inj hk]
      exact hnn₁ k nd₁ hk₁
    · rw [hzero k nd₂ hk hrgk]

/-- Ghost characterisation after one setup pass from a fresh state:
every node records exactly one producer-setup call if it was visited
and has a producer, and zero otherwise. -/
lemma setup_ghost (g : Graph) (r fuel : Nat)
    (hwf : wfOps g)
    (hfresh : ∀ (k : Nat) (nd : Value), g[k]? = some nd → nd.backprop_count = 0)
    (hghost : ∀ (k : Nat) (nd : Value), g[k]? = some nd → nd.op_setup_calls = 0)
    (hr : r < g.length) (hfu : r + 1 ≤ fuel) :
    ∃ g', backprop_setup fuel g r = some g'
      ∧ ∀ (k : Nat) (nd' : Value), g'[k]? = some nd' →
          nd'.op_setup_calls
            = if nd'.backprop_count ≠ 0 ∧ nd'.op.isSome = true then 1 else 0 := by
  have hnn : cntNonneg g := fun k nd hk => (hfresh k nd hk).ge
  obtain ⟨g₁, hset, hfr₁, hnn₁, hreg, hfv⟩ := (setup_exec fuel).1 g r hwf hnn hr hfu
  refine ⟨g₁, hset, ?_⟩
  intro k nd₁ hk
  have hchar : nd₁.backprop_count = (closure setupGate g (bump [r] noPending) k : Int) := by
    have h0 := hreg noPending k
    have hz1 : closure setupGate g₁ noPending k = 0 :=
      closureAux_of_zero setupGate g₁ setupGate_zero g₁.length noPending (fun _ => rfl) k
    have hcnt0 : cntOf g k = 0 := by
      rcases hgk : g[k]? with _ | nd₀
      · simp [cntOf, hgk]
      · simp [cntOf, hgk, hfresh k nd₀ hgk]
    simp only [regTotal] at h0
    rw [hz1, hcnt0] at h0
    simp only [cntOf, hk] at h0
    omega
  have hgk : ∃ nd₀, g[k]? = some nd₀ := by
    rcases h0 : g[k]? with _ | nd₀
    · rw [(setupFrame_none_iff hfr₁ k).mp h0] at hk
      exact absurd hk (by simp)
    · exact ⟨nd₀, rfl⟩
  obtain ⟨nd₀, hgk⟩ := hgk
  obtain ⟨nd₁x, hk₁x, _, _, _, hop₁, _⟩ := setupFrame_some hfr₁ hgk
  rw [hk] at hk₁x
  rw [(Option.some.inj hk₁x).symm] at hop₁
  have h1 := hfv noPending k
  have hz1 : closure setupGate g₁ noPending k = 0 :=
    closureAux_of_zero setupGate g₁ setupGate_zero g₁.length noPending (fun _ => rfl) k
  simp only [fvTotal, hk, hgk, hz1, hfresh k nd₀ hgk, hghost k nd₀ hgk] at h1
  rw [← hop₁] at h1
  by_cases hS : closure setupGate g (bump [r] noPending) k = 0
  · rw [hchar, hS]
    simp only [hS] at h1
    simp only [ne_eq, Nat.cast_zero, not_true_eq_false, false_and, if_false]
    simpa using h1
  · rw [hchar]
    have hSne : ((closure setupGate g (bump [r] noPending) k : Int) ≠ 0) := by
      exact_mod_cast hS
    simp only [hS, hSne, ne_eq, not_false_eq_true, true_and] at h1 ⊢
    rcases hop : nd₁.op.isSome with _ | _
    · simp only [hop] at h1 ⊢
      simpa using h1
    · simp only [hop] at h1 ⊢
      simpa using h1

/-- C5: the pending-contribution counter is never negative at any point of a
backward pass: the only decrement is guarded by the assertion, which raises
(`assertFail`) instead of returning a negative counter, and from any fresh
well-formed state a backward pass returns normally with every requires-grad
node's counter exactly zero and every counter nonnegative. -/
theorem c5_counters_nonneg_and_zero_at_end :
    (∀ (g : Graph) (r fuel : Nat),
      wfB g = true → opRgB g = true → freshB g = true →
      r < g.length → r + 1 ≤ fuel →
      ∃ g', backward fuel g r = .ok g'
        ∧ (∀ (k : Nat) (nd : Value), g'[k]? = some nd → nd.requires_grad = true →
            nd.backprop_count = 0)
        ∧ (∀ (k : Nat) (nd : Value), g'[k]? = some nd → 0 ≤ nd.backprop_count))
    ∧ (∀ (fuel : Nat) (g : Graph) (i : Nat) (go : Rat) (nd : Value),
        g[i]? = some nd → nd.requires_grad = true → nd.backprop_count ≤ 0 →
        backprop_calc (fuel + 1) g i go
          = .assertFail (g.set i { nd with grad := some (nd.grad.getD 0 + go), backprop_count := nd.backprop_count - 1 })) := by
  constructor
  · intro g r fuel hwfb hrgb hfrb hr hfu
    obtain ⟨g₁, g₂, _, _, hbw, _, _, _, hzero, hnneg⟩ :=
      backward_exec g r fuel (wfOps_of_wfB hwfb) (opImpliesRg_of_opRgB hrgb)
        (fresh_of_freshB hfrb) hr hfu
    exact ⟨g₂, hbw, hzero, hnneg⟩
  · intro fuel g i go nd hk hrg hcnt
    have hlt : nd.backprop_count - 1 < 0 := by omega
    simp only [backprop_calc, hk]
    rw [if_pos hrg, if_pos hlt]

theorem c5_counters_nonneg_and_zero_at_end_witness :
    (wfB diamond = true ∧ opRgB diamond = true ∧ freshB diamond = true
      ∧ 5 < diamond.length ∧ 5 + 1 ≤ 8
      ∧ ∃ g', backward 8 diamond 5 = .ok g'
        ∧ (∀ (k : Nat) (nd : Value), g'[k]? = some nd → nd.requires_grad = true →
            nd.backprop_count = 0)
        ∧ (∀ (k : Nat) (nd : Value), g'[k]? = some nd → 0 ≤ nd.backprop_count))
    ∧ backprop_calc 1 c5guard 0 1
        = .assertFail (c5guard.set 0 { Value.init 1 true none with grad := some ((Value.init 1 true none).grad.getD 0 + 1), backprop_count := (Value.init 1 true none).backprop_count - 1 }) :=
  ⟨⟨by decide, by decide, by decide, by decide, by decide,
    c5_counters_nonneg_and_zero_at_end.1 diamond 5 8 (by decide) (by decide)
      (by decide) (by decide) (by decide)⟩,
   c5_counters_nonneg_and_zero_at_end.2 0 c5guard 0 1 (Value.init 1 true none)
     rfl rfl (by decide)⟩

/-- C3: during the setup pass a node recurses into its producer exactly on the
registration that moves its counter from 0 to 1 (any later registration only
increments the counter), so from a fresh well-formed state every visited node
with a producer records exactly one producer-setup call and every other node
records none. -/
theorem c3_setup_recurses_exactly_once :
    (∀ (fuel : Nat) (g : Graph) (i : Nat) (nd : Value),
      g[i]? = some nd → nd.backprop_count + 1 ≠ 1 →
      backprop_setup (fuel + 1) g i
        = some (g.set i { nd with backprop_count := nd.backprop_count + 1 }))
    ∧ (∀ (fuel : Nat) (g : Graph) (i : Nat) (nd : Value) (o : Op),
      g[i]? = some nd → nd.backprop_count + 1 = 1 → nd.op = some o →
      backprop_setup (fuel + 1) g i
        = (o.inputs).foldlM (backprop_setup fuel)
            (g.set i { nd with backprop_count := nd.backprop_count + 1, op_setup_calls := nd.op_setup_calls + 1 }))
    ∧ (∀ (g : Graph) (r fuel : Nat),
      wfB g = true → freshB g = true → ghost0B g = true →
      r < g.length → r + 1 ≤ fuel →
      ∃ g', backprop_setup fuel g r = some g'
        ∧ ∀ (k : Nat) (nd : Value), g'[k]? = some nd →
            nd.op_setup_calls
              = if nd.backprop_count ≠ 0 ∧ nd.op.isSome = true then 1 else 0) := by
  refine ⟨?_, ?_, ?_⟩
  · intro fuel g i nd hk hne
    simp only [backprop_setup, hk]
    rw [if_neg hne]
  · intro fuel g i nd o hk hc hop
    simp only [backprop_setup, hk]
    rw [if_pos hc]
    simp only [hop]
    rw [List.set_set]
  · intro g r fuel hwfb hfrb hghb hr hfu
    exact setup_ghost g r fuel (wfOps_of_wfB hwfb) (fresh_of_freshB hfrb)
      (ghost0_of_ghost0B hghb) hr hfu

theorem c3_setup_recurses_exactly_once_witness :
    (backprop_setup 3 c3w1 0
      = some (c3w1.set 0 { c3n1 with backprop_count := c3n1.backprop_count + 1 }))
    ∧ (backprop_setup 3 c3w2 1
      = ((Op.passthrough 0).inputs).foldlM (backprop_setup 2)
          (c3w2.set 1 { c3n2 with backprop_count := c3n2.backprop_count + 1, op_setup_calls := c3n2.op_setup_calls + 1 }))
    ∧ (∃ g', backprop_setup 8 diamond 5 = some g'
        ∧ ∀ (k : Nat) (nd : Value), g'[k]? = some nd →
            nd.op_setup_calls
              = if nd.backprop_count ≠ 0 ∧ nd.op.isSome = true then 1 else 0) :=
  ⟨c3_setup_recurses_exactly_once.1 2 c3w1 0 c3n1 rfl (by decide),
   c3_setup_recurses_exactly_once.2.1 2 c3w2 1 c3n2 (.passthrough 0) rfl (by decide) rfl,
   c3_setup_recurses_exactly_once.2.2 diamond 5 8 (by decide) (by decide) (by decide)
     (by decide) (by decide)⟩

end Autograd
